import Mathlib

deriving instance DecidableEq for Except

namespace AzureSql

/-!
Verification of the SQL query-construction engine of `node-azure-rest-api`
(`src/sql/sql.ts` and `src/lib/base.dao.ts`), as a shallow embedding.

Entity field values are drawn from an abstract scalar value type `V` with
decidable equality (a linear order is additionally assumed where the SQL
comparison semantics of the target backend is interpreted).  JavaScript
exceptions are modelled with `Except`; JavaScript objects (records) are
modelled as association lists that preserve insertion order, which is how
JavaScript iterates object keys.
-/

/-- The `Operator` union type of `base.dao.interface.ts`:
`'=' | '!=' | '<' | '<=' | '>' | '>=' | 'LIKE' | 'IN' | 'NOT IN' | 'BETWEEN'`. -/
inductive Operator where
  | eq | ne | lt | le | gt | ge | likeOp | inOp | notIn | between
deriving DecidableEq

/-- Rendering of an operator into the SQL text, as interpolated by
`toGroupParametersSql` in the scalar branch. -/
def Operator.render : Operator → String
  | .eq => "="
  | .ne => "!="
  | .lt => "<"
  | .le => "<="
  | .gt => ">"
  | .ge => ">="
  | .likeOp => "LIKE"
  | .inOp => "IN"
  | .notIn => "NOT IN"
  | .between => "BETWEEN"

/-- The `Method` union of `base.dao.ts`: `'find' | 'insert' | 'update' | 'delete'`. -/
inductive Method where
  | find | insert | update | delete
deriving DecidableEq

/-- A JavaScript `MaybeArray` value position: a scalar (possibly `null`/`undefined`,
modelled as `none`) or an array of scalars. -/
inductive MaybeArrayVal (V : Type) where
  | scalar : Option V → MaybeArrayVal V
  | arr : List V → MaybeArrayVal V
deriving DecidableEq

/-- `FieldQuery<T>` of `base.dao.interface.ts`: a value together with an optional
operator (`operator ?? '='` is applied by `mapEntityItems`). -/
structure FieldQueryV (V : Type) where
  value : MaybeArrayVal V
  operator : Option Operator
deriving DecidableEq

/-- A field of an `EntityParameter`: either a raw (scalar or array) value or a
`FieldQuery` object.  `mapEntityItems` distinguishes the two with
`typeof itemValue === 'object' && 'value' in itemValue`. -/
inductive FieldValue (V : Type) where
  | plain : MaybeArrayVal V → FieldValue V
  | query : FieldQueryV V → FieldValue V
deriving DecidableEq

/-- An `EntityParameter<T>`: a JavaScript object from field names to field values,
modelled as an insertion-ordered association list (JavaScript objects cannot
contain a duplicate key, which theorems state as a `Nodup` hypothesis). -/
abbrev Item (V : Type) := List (String × FieldValue V)

/-- `ValueKey<T>` of `sql.ts`: a bound parameter value together with the source
column it came from. -/
structure ValueKey (V : Type) where
  value : V
  key : String
deriving DecidableEq

/-- `QueryType<T>` of `sql.ts`: the compiled SQL text and its bound parameter
record (insertion-ordered, as built by `getParams`). -/
structure QueryType (V : Type) where
  sql : String
  params : List (String × ValueKey V)
deriving DecidableEq

/-- The rendering of a `Method` literal when interpolated into a template
string (`${action}`). -/
def Method.render : Method → String
  | .find => "find"
  | .insert => "insert"
  | .update => "update"
  | .delete => "delete"

/-- The `SqlError` class (the second document of `src/errors/blob.error.ts`,
which `sql.ts` imports as `../errors/sql.error.ts`): an `Error` whose `name` is
`"SqlError"` and whose message the class constructor builds as
`[SQL: ${tableName}] ${message}`; an instance is therefore determined by its
message string. -/
structure SqlError where
  message : String
deriving DecidableEq

/-- `new SqlError(tableName, message)`. -/
def SqlError.new (tableName message : String) : SqlError :=
  ⟨"[SQL: " ++ tableName ++ "] " ++ message⟩

/-- `SqlError.actionError(tableName, action, message)`. -/
def SqlError.actionError (tableName : String) (action : Method) (message : String) :
    SqlError :=
  SqlError.new tableName (message ++ " for " ++ action.render)

/-- `SqlError.invalidOrderBy(tableName, action, item = 'item')`. -/
def SqlError.invalidOrderBy (tableName : String) (action : Method)
    (item : String := "item") : SqlError :=
  SqlError.actionError tableName action ("Invalid orderBy " ++ item)

/-- `SqlError.invalidOrderByColumn(tableName, action)`. -/
def SqlError.invalidOrderByColumn (tableName : String) (action : Method) : SqlError :=
  SqlError.invalidOrderBy tableName action "column"

/-- `SqlError.invalidBetween(tableName, action)`. -/
def SqlError.invalidBetween (tableName : String) (action : Method) : SqlError :=
  SqlError.actionError tableName action "Invalid between values"

/-- `SqlError.unknownColumn(tableName, action, item)`. -/
def SqlError.unknownColumn (tableName : String) (action : Method) (item : String) :
    SqlError :=
  SqlError.actionError tableName action ("Unknown column name " ++ item)

/-- `DaoError` variants of `dao.error.ts` reachable from `defaultBeforeHook`:
`DaoError.noId`, `DaoError.noColumn` ("Missing id" / "No columns"), and the
aggregated `DaoError.validateField` error. -/
inductive DaoErr where
  | noId (className : String) (action : Method)
  | noColumn (className : String) (action : Method)
  | validateField (className : String)
deriving DecidableEq

/-- A `MaybeArray<string>` (used for `columnFiltered` arguments). -/
inductive MaybeArrayStr where
  | scalar : String → MaybeArrayStr
  | arr : List String → MaybeArrayStr
deriving DecidableEq

/-- `ensureArray` on a `MaybeArray<string>`. -/
def ensureArrayStr : MaybeArrayStr → List String
  | .scalar s => [s]
  | .arr l => l

/-- lodash `isNil` on a field value: `null`/`undefined` scalars are nil; arrays
and `FieldQuery` objects are not. -/
def jsIsNil {V : Type} : FieldValue V → Bool
  | .plain (.scalar none) => true
  | _ => false

/-- The value/operator extraction performed by `mapEntityItems` on each field:
a `FieldQuery` object contributes its `value` and `operator ?? '='`; a raw
value gets the default operator `'='`. -/
def fieldView {V : Type} : FieldValue V → MaybeArrayVal V × Operator
  | .plain v => (v, .eq)
  | .query q => (q.value, q.operator.getD .eq)

/-! ### Decimal rendering of JavaScript numbers used in parameter names

Template literals such as `` `${keyStr}_${itemIndex}` `` convert the numeric
index to its decimal string.  `natStr` is that conversion for naturals,
written with explicit fuel so that it is structurally recursive (the fuel
`n + 1` always suffices, since a natural `n` has at most `n + 1` digits). -/

/-- The decimal digit character for `d < 10` (`'0'` is a dummy for `d ≥ 10`,
which is never reached since the function is only applied to `n % 10` or `n < 10`). -/
def digitChr : Nat → Char
  | 0 => '0'
  | 1 => '1'
  | 2 => '2'
  | 3 => '3'
  | 4 => '4'
  | 5 => '5'
  | 6 => '6'
  | 7 => '7'
  | 8 => '8'
  | 9 => '9'
  | _ => '0'

/-- Fuel-driven decimal printer: most significant digits first. -/
def natStrAux : Nat → Nat → String
  | 0, _ => ""
  | fuel + 1, n =>
    if n < 10 then (digitChr n).toString
    else natStrAux fuel (n / 10) ++ (digitChr (n % 10)).toString

/-- Decimal string of a natural number (the JS `${n}` interpolation). -/
def natStr (n : Nat) : String := natStrAux (n + 1) n

/-- Parameter-name construction: `pname k [i, c, e]` is the string
`k ++ "_" ++ i ++ "_" ++ c ++ "_" ++ e` built exactly as the nested template
literals of `sql.ts` build it (`groupKey = ${keyStr}_${itemIndex}` and so on). -/
def pname (k : String) : List Nat → String
  | [] => k
  | n :: rest => pname (k ++ "_" ++ natStr n) rest

/-- A string is underscore-free when none of its characters is `'_'`.
Parameter names are unambiguous exactly for fields whose column names satisfy
this (see the collision counterexample at claim C3). -/
def UscFree (s : String) : Prop := ∀ c ∈ s.data, c ≠ '_'

instance (s : String) : Decidable (UscFree s) := by
  unfold UscFree; infer_instance

/-- Numeric value of a decimal digit character. -/
def digitVal (c : Char) : Nat := c.toNat - 48

/-- Left fold reading a decimal digit string back into a natural number. -/
def parseNatChars (l : List Char) : Nat := l.foldl (fun a c => a * 10 + digitVal c) 0

/-- The character suffix that `pname` appends for an index list. -/
def sfxData : List Nat → List Char
  | [] => []
  | n :: rest => '_' :: ((natStr n).data ++ sfxData rest)

/-! ### lodash helpers: `join`, `chunk`, `uniq`, `groupBy` -/

/-- lodash `join(list, sep)`. -/
def joinSep (sep : String) : List String → String
  | [] => ""
  | [s] => s
  | s :: rest => s ++ sep ++ joinSep sep rest

/-- Fuel-driven body of `chunkList`; the fuel `l.length` always suffices since
each step drops at least one element (`n ≥ 1`). -/
def chunkAux {V : Type} (n : Nat) : Nat → List V → List (List V)
  | _, [] => []
  | 0, _ :: _ => []
  | fuel + 1, x :: xs => (x :: xs).take n :: chunkAux n fuel ((x :: xs).drop n)

/-- lodash `chunk(list, n)`: splits into consecutive sublists of at most `n`
elements; `chunk(list, 0)` is `[]`. -/
def chunkList {V : Type} (l : List V) (n : Nat) : List (List V) :=
  if n = 0 then [] else chunkAux n l.length l

/-- lodash `uniq`: keeps the first occurrence of each value. -/
def uniqList {V : Type} [DecidableEq V] (l : List V) : List V :=
  l.foldl (fun acc x => if x ∈ acc then acc else acc ++ [x]) []

/-- lodash `groupBy(pairs, 0)` keyed by the numeric first component: groups in
first-occurrence order, each group collecting the second components in order.
(In JavaScript the record key is the decimal string of the index; distinct
indices give distinct key strings, so keying by the `Nat` itself is faithful.) -/
def insertGroup {β : Type} : List (Nat × List β) → Nat → β → List (Nat × List β)
  | [], k, v => [(k, [v])]
  | (k', vs) :: rest, k, v =>
    if k = k' then (k', vs ++ [v]) :: rest else (k', vs) :: insertGroup rest k v

def groupByFst {β : Type} (l : List (Nat × β)) : List (Nat × List β) :=
  l.foldl (fun acc p => insertGroup acc p.1 p.2) []

/-- lodash `map(arr, (v, i) => …)`: map with the element index, starting at `i`. -/
def mapWithIndexFrom {α β : Type} (f : Nat → α → β) : Nat → List α → List β
  | _, [] => []
  | i, x :: xs => f i x :: mapWithIndexFrom f (i + 1) xs

/-- lodash `map(arr, (v, i) => …)` over the whole list (indices from `0`). -/
def mapWithIndex {α β : Type} (f : Nat → α → β) (l : List α) : List β :=
  mapWithIndexFrom f 0 l

/-! ### Options records -/

/-- Default `IN (...)` chunk size (`AZURE_SQL_IN_CHUNK`, default `800`). -/
def DEFAULT_IN_CHUNK : Nat := 800

/-- Default page size (`AZURE_SQL_LIMIT`, default `100`). -/
def DEFAULT_TAKE : Nat := 100

/-- `onUnknownColumn` modes. -/
inductive UnknownMode where
  | ignore | throwMode
deriving DecidableEq

/-- Options of `toGroupParametersSql`. -/
structure SqlOptions where
  escapeChar : Option String := none
  columnsList : Option (List String) := none
  onUnknownColumn : UnknownMode := .ignore
  inChunkSize : Option Nat := none

/-- Options of `toGroupParametersKeyValue` and `getParams`.  The `likeMode` and
`escapeChar` options only feed `applyLikeValue`; over the abstract scalar
domain that transform is carried as the function `applyLike`
(`fun v => applyLikeValue v likeMode escapeChar`), defaulting to the identity
(`likeMode = 'raw'` with no escape character). -/
structure KvOptions (V : Type) where
  inChunkSize : Option Nat := none
  applyLike : V → V := id

/-! ### `mapEntityItems` -/

/-- Field traversal of one entity item (the inner `forEach` of
`mapEntityItems`), flattening the callback results and propagating the first
thrown error. -/
def mapFields {V β : Type} (f : MaybeArrayVal V → String → Operator → Nat → Except SqlError (List β))
    (i : Nat) : Item V → Except SqlError (List β)
  | [] => .ok []
  | (k, fv) :: rest => do
    let r ← f (fieldView fv).1 k (fieldView fv).2 i
    let rs ← mapFields f i rest
    pure (r ++ rs)

/-- Item traversal of `mapEntityItems` starting at item index `i`. -/
def mapItemsFrom {V β : Type}
    (f : MaybeArrayVal V → String → Operator → Nat → Except SqlError (List β)) :
    List (Item V) → Nat → Except SqlError (List β)
  | [], _ => .ok []
  | item :: rest, i => do
    let r ← mapFields f i item
    let rs ← mapItemsFrom f rest (i + 1)
    pure (r ++ rs)

/-- `mapEntityItems`: map over each entity item and its properties, flattening
the per-field results into one list (`sql.ts` lines 124-160). -/
def mapEntityItems {V β : Type} (items : List (Item V))
    (f : MaybeArrayVal V → String → Operator → Nat → Except SqlError (List β)) :
    Except SqlError (List β) :=
  mapItemsFrom f items 0

/-! ### Predicate compiler: `toGroupParametersSql` -/

/-- A single SQL single-quote character, used by the `ESCAPE '…'` suffix. -/
def sqlQuote : String := ⟨[Char.ofNat 39]⟩

/-- The per-field callback of `toGroupParametersSql` (`sql.ts` lines 184-250):
classifies the field value/operator and emits one SQL predicate fragment
tagged with the item index. -/
def sqlFragmentForField (tableName : String) (action : Method) (opts : SqlOptions)
    {V : Type} (itemValue : MaybeArrayVal V) (keyStr : String) (operator : Operator)
    (itemIndex : Nat) : Except SqlError (Nat × String) :=
  if opts.columnsList.isSome ∧ keyStr ∉ opts.columnsList.getD [] then
    if opts.onUnknownColumn = .ignore then .ok (itemIndex, "1=1")
    else .error (.unknownColumn tableName action keyStr)
  else
    let groupKey := pname keyStr [itemIndex]
    let esc := match opts.escapeChar with
      | some e => " ESCAPE " ++ sqlQuote ++ e ++ sqlQuote
      | none => ""
    match itemValue with
    | .arr l =>
      if l.length = 0 then
        if operator = .ne ∨ operator = .notIn then .ok (itemIndex, "1=1")
        else .ok (itemIndex, "1=0")
      else if operator = .between then
        if l.length ≠ 2 then .error (.invalidBetween tableName action)
        else .ok (itemIndex,
          "[" ++ keyStr ++ "] BETWEEN IIF(@" ++ pname groupKey [0] ++ " < @" ++
            pname groupKey [1] ++ ", @" ++ pname groupKey [0] ++ ", @" ++ pname groupKey [1] ++
            ") AND IIF(@" ++ pname groupKey [0] ++ " > @" ++ pname groupKey [1] ++ ", @" ++
            pname groupKey [0] ++ ", @" ++ pname groupKey [1] ++ ")")
      else if operator = .likeOp then
        let likes := joinSep " OR "
          (mapWithIndex (fun j _ => "[" ++ keyStr ++ "] LIKE @" ++ pname groupKey [j] ++ esc) l)
        .ok (itemIndex, "(" ++ likes ++ ")")
      else
        let chunks := chunkList l (opts.inChunkSize.getD DEFAULT_IN_CHUNK)
        let chunkClauses := mapWithIndex (fun cidx arr =>
          let placeholders := joinSep ", "
            (mapWithIndex (fun j _ => "@" ++ pname groupKey [cidx, j]) arr)
          if operator = .ne ∨ operator = .notIn then
            "[" ++ keyStr ++ "] NOT IN (" ++ placeholders ++ ")"
          else
            "[" ++ keyStr ++ "] IN (" ++ placeholders ++ ")") chunks
        let glue := if operator = .notIn then " AND " else " OR "
        .ok (itemIndex, "(" ++ joinSep glue chunkClauses ++ ")")
    | .scalar none =>
      if operator = .ne ∨ operator = .notIn then
        .ok (itemIndex, "[" ++ keyStr ++ "] IS NOT NULL")
      else
        .ok (itemIndex, "[" ++ keyStr ++ "] IS NULL")
    | .scalar (some _) =>
      if operator = .likeOp then
        .ok (itemIndex, "[" ++ keyStr ++ "] LIKE @" ++ groupKey ++ esc)
      else
        .ok (itemIndex, "[" ++ keyStr ++ "] " ++ operator.render ++ " @" ++ groupKey)

/-- `toGroupParametersSql` (`sql.ts` lines 166-256): generate SQL fragment
strings for each entity property, grouped by originating item index. -/
def toGroupParametersSql (tableName : String) (action : Method) {V : Type}
    (items : List (Item V)) (opts : SqlOptions) :
    Except SqlError (List (Nat × List String)) := do
  let kvs ← mapEntityItems items
    (fun v k op i => (sqlFragmentForField tableName action opts v k op i).map (fun p => [p]))
  pure (groupByFst kvs)

/-! ### Parameter binder: `toGroupParametersKeyValue`, `getParams` -/

/-- `applyLikeValue` (`sql.ts` lines 94-114), for string-valued scalars: escape
the escape character, `%` and `_` when an escape character is configured, then
apply the wildcard mode. -/
inductive LikeMode where
  | raw | contains | startsWith | endsWith
deriving DecidableEq

def applyLikeValue (v : String) (likeMode : LikeMode) (escapeChar : Option String) : String :=
  let v := match escapeChar with
    | some e => ((v.replace e (e ++ e)).replace "%" (e ++ "%")).replace "_" (e ++ "_")
    | none => v
  match likeMode with
  | .contains => "%" ++ v ++ "%"
  | .startsWith => v ++ "%"
  | .endsWith => "%" ++ v
  | .raw => v

/-- The per-field callback of `toGroupParametersKeyValue` (`sql.ts` lines
305-352): emits the named parameter bindings for one field. -/
def kvForField (tableName : String) (action : Method) {V : Type} (opts : KvOptions V)
    (itemValue : MaybeArrayVal V) (keyStr : String) (operator : Operator)
    (itemIndex : Nat) : Except SqlError (List (String × ValueKey V)) :=
  let inChunkSize := opts.inChunkSize.getD DEFAULT_IN_CHUNK
  let groupKey := pname keyStr [itemIndex]
  match itemValue with
  | .arr l =>
    if l.length = 0 then .ok []
    else if operator = .between then
      if l.length ≠ 2 then .error (.invalidBetween tableName action)
      else .ok (mapWithIndex (fun j v => (pname groupKey [j], ⟨v, keyStr⟩)) l)
    else if operator = .likeOp then
      .ok (mapWithIndex (fun j v => (pname groupKey [j], ⟨opts.applyLike v, keyStr⟩)) l)
    else
      .ok (mapWithIndex (fun cidx arr =>
        mapWithIndex (fun j v => (pname groupKey [cidx, j], ⟨v, keyStr⟩)) arr)
        (chunkList l inChunkSize)).flatten
  | .scalar none => .ok []
  | .scalar (some v) =>
    if operator = .likeOp then .ok [(groupKey, ⟨opts.applyLike v, keyStr⟩)]
    else .ok [(groupKey, ⟨v, keyStr⟩)]

/-- `toGroupParametersKeyValue` (`sql.ts` lines 295-353). -/
def toGroupParametersKeyValue (tableName : String) (action : Method) {V : Type}
    (items : List (Item V)) (opts : KvOptions V) :
    Except SqlError (List (String × ValueKey V)) :=
  mapEntityItems items (fun v k op i => kvForField tableName action opts v k op i)

/-- JavaScript record assignment `params[key] = v`: overwrite in place when the
key exists, append otherwise. -/
def recordInsert {β : Type} (r : List (String × β)) (k : String) (v : β) :
    List (String × β) :=
  if (r.lookup k).isSome then r.map (fun p => if p.1 = k then (k, v) else p)
  else r ++ [(k, v)]

/-- `getParams` (`sql.ts` lines 495-514): assemble the flattened key-value
pairs into one parameter record. -/
def getParams (tableName : String) (action : Method) {V : Type}
    (items : List (Item V)) (opts : KvOptions V) :
    Except SqlError (List (String × ValueKey V)) := do
  let kvs ← toGroupParametersKeyValue tableName action items opts
  pure (kvs.foldl (fun r p => recordInsert r p.1 p.2) [])

/-! ### Column-shape grouping -/

/-- `getColumnLists` (`sql.ts` lines 258-273): the present column names of each
item, grouped by item index.  (The callback never throws, so the error branch
of the `mapEntityItems` plumbing is unreachable.) -/
def getColumnLists {V : Type} (items : List (Item V)) : List (Nat × List String) :=
  match mapEntityItems items (fun _ k _ i => .ok [(i, k)]) with
  | .ok kvs => groupByFst kvs
  | .error _ => []

/-- Stable insertion into an ascending list of strings (lodash `sortBy`). -/
def insertSorted (s : String) : List String → List String
  | [] => [s]
  | x :: xs => if x ≤ s then x :: insertSorted s xs else s :: x :: xs

/-- lodash `sortBy` on a list of strings: stable ascending sort. -/
def sortStrings (l : List String) : List String := l.foldr insertSorted []

/-- `JSON.stringify` escaping for the characters that can occur in a quoted
JSON string: the double quote and the backslash are escaped with a backslash.
(Control-character escapes are not modelled; the encoding stays injective.) -/
def jsonEscChar (c : Char) : List Char :=
  if c = '"' ∨ c = '\\' then ['\\', c] else [c]

/-- A JSON string literal for `s`. -/
def jsonQuoteStr (s : String) : String :=
  "\"" ++ String.mk (s.data.flatMap jsonEscChar) ++ "\""

/-- `JSON.stringify` of a list of strings (the canonical column-shape key). -/
def jsonStringifyStrList (l : List String) : String :=
  "[" ++ joinSep "," (l.map jsonQuoteStr) ++ "]"

/-- One group of `groupEntityParametersBySortedColumns`: the canonical
serialized key, the sorted column list it denotes (the source recovers it with
`JSON.parse(sortedKey)`, which is the inverse of the serialization and is
therefore carried explicitly here), and the item indices of the group. -/
structure ColumnGroup where
  sortedKey : String
  columns : List String
  ids : List Nat
deriving DecidableEq

/-- `reversedGroups[sortedKey].push(key)`, preserving first-occurrence order of
the group keys. -/
def insertShapeGroup : List ColumnGroup → String → List String → Nat → List ColumnGroup
  | [], key, cols, i => [⟨key, cols, [i]⟩]
  | g :: rest, key, cols, i =>
    if key = g.sortedKey then ⟨g.sortedKey, g.columns, g.ids ++ [i]⟩ :: rest
    else g :: insertShapeGroup rest key cols i

/-- `groupEntityParametersBySortedColumns` (`sql.ts` lines 276-289): group item
indices by the serialized sorted list of their present column names. -/
def groupEntityParametersBySortedColumns {V : Type} (items : List (Item V)) :
    List ColumnGroup :=
  (getColumnLists items).foldl (fun acc p =>
    insertShapeGroup acc (jsonStringifyStrList (sortStrings p.2)) (sortStrings p.2) p.1) []

/-! ### Statement builders -/

/-- The `{columnSql, valuesSql, columns}` triple produced for each shape group. -/
structure ColsVals where
  columnSql : String
  valuesSql : String
  columns : List String
deriving DecidableEq

/-- `buildColumnsAndValuesSqlStatements` (`sql.ts` lines 405-419). -/
def buildColumnsAndValuesSqlStatements (grouped : List ColumnGroup) : List ColsVals :=
  grouped.map (fun g =>
    let columnSql := "([" ++ joinSep "],  [" g.columns ++ "])"
    let valuesSql := joinSep ", " (g.ids.map (fun i =>
      "(" ++ joinSep ", " (g.columns.map (fun col => "@" ++ pname col [i])) ++ ")"))
    ⟨columnSql, valuesSql, g.columns⟩)

/-- `buildInsertSqlStatements` (`sql.ts` lines 422-428). -/
def buildInsertSqlStatements (grouped : List ColumnGroup) : List String :=
  (buildColumnsAndValuesSqlStatements grouped).map (fun cv =>
    cv.columnSql ++ " VALUES " ++ cv.valuesSql)

/-- `buildUpdateSqlStatements` (`sql.ts` lines 431-451). -/
def buildUpdateSqlStatements (grouped : List ColumnGroup) (keyColumn : String := "id") :
    List String :=
  (buildColumnsAndValuesSqlStatements grouped).map (fun cv =>
    let columnForSet := (cv.columns.filter (fun c => c ≠ keyColumn)).map
      (fun col => col ++ " = source." ++ col)
    "USING (VALUES\n    " ++ cv.valuesSql ++ "\n  ) AS source" ++ cv.columnSql ++
      " \n   ON target." ++ keyColumn ++ " = source." ++ keyColumn ++
      "\n   WHEN MATCHED THEN\n  UPDATE SET " ++ joinSep ", " columnForSet)

/-! ### Item-level preparation helpers -/

/-- `ensureArray` applied to a raw field value, as in
`prepareUpdateEntityParamsByKey`: an array spreads into its (scalar) elements,
a non-nil scalar wraps into a singleton, nil gives `[]`, and a `FieldQuery`
object (a non-array object) wraps into a singleton of itself. -/
def ensureArrayOfValue {V : Type} : FieldValue V → List (FieldValue V)
  | .plain (.scalar none) => []
  | .plain (.scalar (some v)) => [.plain (.scalar (some v))]
  | .plain (.arr l) => l.map (fun v => .plain (.scalar (some v)))
  | .query q => [.query q]

/-- The JavaScript spread-update `{...item, [key]: v}`: an existing key keeps
its position and is overwritten; a fresh key is appended. -/
def setField {V : Type} (item : Item V) (k : String) (v : FieldValue V) : Item V :=
  if (item.lookup k).isSome then item.map (fun p => if p.1 = k then (k, v) else p)
  else item ++ [(k, v)]

/-- `prepareUpdateEntityParamsByKey` (`sql.ts` lines 355-369): drop items whose
key column is nil, and expand an array-valued key column into one row per key
value (sharing every other field). -/
def prepareUpdateEntityParamsByKey {V : Type} (items : List (Item V))
    (keyColumn : String := "id") : List (Item V) :=
  items.flatMap (fun item =>
    match item.lookup keyColumn with
    | none => []
    | some fv =>
      if jsIsNil fv then []
      else (ensureArrayOfValue fv).map (fun k => setField item keyColumn k))

/-- `pick` / `omit` selector of `entityParametersFilter`. -/
inductive FilterOp where
  | inMode | outMode
deriving DecidableEq

/-- lodash `pick(item, keys)`: the selected fields, in key-list order. -/
def pickKeys {V : Type} (item : Item V) (ks : List String) : Item V :=
  ks.filterMap (fun k => (item.lookup k).map (fun v => (k, v)))

/-- lodash `omit(item, keys)`: item without the listed fields. -/
def omitKeys {V : Type} (item : Item V) (ks : List String) : Item V :=
  item.filter (fun p => p.1 ∉ ks)

/-- `entityParametersFilter` (`sql.ts` lines 371-382). -/
def entityParametersFilter {V : Type} (items : List (Item V))
    (columnFiltered : Option MaybeArrayStr := some (.scalar "id"))
    (op : FilterOp := .outMode) : List (Item V) :=
  match columnFiltered with
  | none => items
  | some cf => items.map (fun item =>
      match op with
      | .inMode => pickKeys item (ensureArrayStr cf)
      | .outMode => omitKeys item (ensureArrayStr cf))

/-- `mergeEntityParametersById` (`sql.ts` lines 384-400): flatten all non-nil
`id` values across items and deduplicate them into one `{id: uniqIds}` item.
(A `FieldQuery`-valued `id` would be pushed by JavaScript as an opaque object
value; that is not representable over the scalar value domain and the theorems
below restrict to plain `id` values.) -/
def mergeEntityParametersById {V : Type} [DecidableEq V] (items : List (Item V)) :
    List (Item V) :=
  let ids : List V := items.foldl (fun acc item =>
    match item.lookup "id" with
    | some (.plain (.scalar (some v))) => acc ++ [v]
    | some (.plain (.arr l)) => acc ++ l
    | _ => acc) []
  [[("id", .plain (.arr (uniqList ids)))]]

/-! ### Top-level statement compilers -/

/-- `insertSql` (`sql.ts` lines 516-530). -/
def insertSql (tableName : String) {V : Type} (items : List (Item V))
    (columnFiltered : Option MaybeArrayStr := some (.scalar "id"))
    (opts : KvOptions V := {}) : Except SqlError (QueryType V) := do
  let entityParametersFiltered := entityParametersFilter items columnFiltered .outMode
  let baseSql := "INSERT INTO [" ++ tableName ++ "]"
  let params ← getParams tableName .insert entityParametersFiltered opts
  let reversedColumnLists := groupEntityParametersBySortedColumns entityParametersFiltered
  let sqlStatements := buildInsertSqlStatements reversedColumnLists
  let insertSqlStatement := sqlStatements.map (fun s => baseSql ++ " " ++ s ++ ";")
  pure ⟨joinSep "\n" insertSqlStatement, params⟩

/-- `updateByKeySql` (`sql.ts` lines 532-552). -/
def updateByKeySql (tableName : String) {V : Type} (items : List (Item V))
    (keyColumn : String := "id") (opts : KvOptions V := {}) :
    Except SqlError (QueryType V) := do
  let preparedUpdateEntityParams :=
    if keyColumn ≠ "id" then
      prepareUpdateEntityParamsByKey
        (entityParametersFilter items (some (.scalar "id")) .outMode) keyColumn
    else prepareUpdateEntityParamsByKey items "id"
  let baseSql := "MERGE INTO [" ++ tableName ++ "] AS target"
  let params ← getParams tableName .update preparedUpdateEntityParams opts
  let reversedColumnLists := groupEntityParametersBySortedColumns preparedUpdateEntityParams
  let sqlStatements := buildUpdateSqlStatements reversedColumnLists keyColumn
  let insertSqlStatement := sqlStatements.map (fun s => baseSql ++ " " ++ s ++ ";")
  pure ⟨joinSep "\n" insertSqlStatement, params⟩

/-- `deleteByIdSql` (`sql.ts` lines 554-575). -/
def deleteByIdSql (tableName : String) {V : Type} [DecidableEq V]
    (items : List (Item V)) (inChunkSize : Option Nat := none) :
    Except SqlError (QueryType V) := do
  let entityParametersFiltered := entityParametersFilter items (some (.scalar "id")) .inMode
  let mergedEntityParameter := mergeEntityParametersById entityParametersFiltered
  let baseSql := "DELETE FROM [" ++ tableName ++ "]"
  let params ← getParams tableName .delete mergedEntityParameter ⟨inChunkSize, id⟩
  let groupedParametersSql ← toGroupParametersSql tableName .delete mergedEntityParameter
    { inChunkSize := inChunkSize }
  let sqlStatements := groupedParametersSql.map (fun g =>
    baseSql ++ " WHERE (" ++ joinSep " AND " g.2 ++ ");")
  pure ⟨joinSep "\n" sqlStatements, params⟩

/-! ### Select: ordering and paging -/

inductive Direction where
  | asc | desc
deriving DecidableEq

def Direction.render : Direction → String
  | .asc => "ASC"
  | .desc => "DESC"

/-- An `orderBy` entry: a bare column name or a `{column, direction?}` object.
(An entry that is neither a string nor an object - the `invalidOrderBy` throw
site - is not representable in the typed model.) -/
inductive OrderBySpec where
  | str (column : String)
  | obj (column : String) (direction : Option Direction)
deriving DecidableEq

/-- JavaScript truthiness of `options?.skip` / `options?.take`: `undefined` and
`0` are falsy. -/
def truthyNum : Option Nat → Bool
  | none => false
  | some n => n ≠ 0

/-- `buildOrderBySql` (`sql.ts` lines 453-493): explicit order-by list when
present and non-empty (validating each column against the whitelist), else the
default `created_at ASC` ordering exactly when `options?.skip || options?.take`
is truthy, else the empty string. -/
def buildOrderBySql (tableName : String) (columnsList : List String)
    (skip take : Option Nat) (orderBy : Option (List OrderBySpec))
    (defaultOrderBy : Option String) : Except SqlError String :=
  if orderBy.isSome ∧ (orderBy.getD []).length ≠ 0 then do
    let frags ← (orderBy.getD []).mapM (fun o => do
      let column := match o with
        | .str c => c
        | .obj c _ => c
      let direction := match o with
        | .str _ => Direction.asc
        | .obj _ d => d.getD .asc
      if column ∈ columnsList then
        pure ("[" ++ column ++ "] " ++ direction.render)
      else
        Except.error (.invalidOrderByColumn tableName .find))
    pure ("ORDER BY " ++ joinSep ", " frags)
  else if truthyNum skip ∨ truthyNum take then
    pure ("ORDER BY [" ++ defaultOrderBy.getD "created_at" ++ "] ASC")
  else
    pure ""

/-- Options of `selectByColumnsSql`. -/
structure SelectOptions (V : Type) where
  skip : Option Nat := none
  take : Option Nat := none
  orderBy : Option (List OrderBySpec) := none
  defaultOrderBy : Option String := none
  inChunkSize : Option Nat := none
  applyLike : V → V := id
  escapeChar : Option String := none

/-- `selectByColumnsSql` (`sql.ts` lines 577-639). -/
def selectByColumnsSql (tableName : String) (columnsList : List String) {V : Type}
    (items : List (Item V)) (opts : SelectOptions V) : Except SqlError (QueryType V) := do
  let baseSql := "SELECT * FROM [" ++ tableName ++ "]"
  let orderBySql ← buildOrderBySql tableName columnsList opts.skip opts.take
    opts.orderBy opts.defaultOrderBy
  let skip := opts.skip.getD 0
  let take := opts.take.getD DEFAULT_TAKE
  let pagingSql :=
    if opts.skip.isSome ∨ opts.take.isSome then
      "OFFSET " ++ natStr skip ++ " ROWS FETCH NEXT " ++ natStr take ++ " ROWS ONLY"
    else ""
  if items.length = 0 then
    pure ⟨"\n    " ++ baseSql ++ "\n    " ++ orderBySql ++ "\n    " ++ pagingSql ++ ";\n  ", []⟩
  else do
    let params ← getParams tableName .find items ⟨opts.inChunkSize, opts.applyLike⟩
    let groupedParametersSql ← toGroupParametersSql tableName .find items
      { inChunkSize := opts.inChunkSize, columnsList := some columnsList,
        onUnknownColumn := .throwMode, escapeChar := opts.escapeChar }
    let sqlStatements := groupedParametersSql.map (fun g =>
      "(" ++ joinSep " AND " g.2 ++ ")")
    let whereSql := "WHERE " ++ joinSep " OR " sqlStatements
    pure ⟨"\n    " ++ baseSql ++ "\n    " ++ whereSql ++ "\n    " ++ orderBySql ++ "\n    " ++
      pagingSql ++ ";\n  ", params⟩

/-! ### DAO orchestration: `cleanParameters` and the default before-hook -/

/-- JavaScript truthiness of the `columnFiltered` argument (`if (columnFiltered)`):
`undefined` and the empty string are falsy; every other string and every array
(including the empty array) are truthy. -/
def cfTruthy : Option MaybeArrayStr → Bool
  | none => false
  | some (.scalar s) => s ≠ ""
  | some (.arr _) => true

/-- `cleanParameters` (`base.dao.ts` lines 434-452): drop nil-valued fields,
drop items left empty, and - when a truthy `columnFiltered` is supplied - keep
only items containing every required column. -/
def cleanParameters {V : Type} (data : List (Item V))
    (columnFiltered : Option MaybeArrayStr) : List (Item V) :=
  let filtered := (data.map (fun item => item.filter (fun p => ¬ jsIsNil p.2))).filter
    (fun item => !item.isEmpty)
  if cfTruthy columnFiltered then
    filtered.filter (fun item =>
      (ensureArrayStr (columnFiltered.getD (.arr []))).all
        (fun c => c ∈ item.map Prod.fst))
  else filtered

/-- `defaultBeforeHook` (`base.dao.ts` lines 119-135): clean the parameters,
raise `DaoError.noId` / `DaoError.noColumn` when nothing remains for a mutating
action, and otherwise run field validation (`this.validateField`, injected here
as `validate` since the entity schema is constructor-injected in the source). -/
def defaultBeforeHook {V : Type}
    (validate : List (Item V) → Except DaoErr (List (Item V)))
    (className : String) (data : List (Item V)) (action : Method)
    (columnFiltered : Option MaybeArrayStr) : Except DaoErr (List (Item V)) :=
  let cleanedParameters := cleanParameters data columnFiltered
  if cleanedParameters.length = 0 ∧ action ≠ .find then
    if columnFiltered = some (.scalar "id") then .error (.noId className action)
    else .error (.noColumn className action)
  else validate cleanedParameters

/-! ### Spec-side semantics of compiled fragments

These definitions interpret the compiled parameterized SQL predicates: a named
placeholder is resolved against the bound parameter record, `IN` is list
membership, and `BETWEEN` with the two `IIF` selections is the closed interval
between the smaller and the larger operand. -/

/-- Semantics of one `[col] IN (@n1, …, @nk)` test under bound parameters:
the row satisfies it when some placeholder resolves to the row value. -/
def evalInClause {V : Type} [DecidableEq V] (params : List (String × ValueKey V))
    (names : List String) (row : V) : Bool :=
  names.any (fun n =>
    match params.lookup n with
    | some vk => decide (vk.value = row)
    | none => false)

/-- Semantics of the chunked fragment emitted for an array value with an
IN-family operator: per-chunk clauses are `NOT IN` tests for `!=`/`NOT IN` and
`IN` tests otherwise, and they are combined with the emitted glue, which is
`AND` only for `NOT IN` and `OR` otherwise (also for `!=`). -/
def evalChunkedFragment {V : Type} [DecidableEq V] (op : Operator)
    (params : List (String × ValueKey V)) (chunkNames : List (List String)) (row : V) : Bool :=
  if op = .notIn then chunkNames.all (fun ns => ! evalInClause params ns row)
  else if op = .ne then chunkNames.any (fun ns => ! evalInClause params ns row)
  else chunkNames.any (fun ns => evalInClause params ns row)

/-- The placeholder names of the chunked compilation of field `k` of item `i`,
one name list per chunk (`{k}_{i}_{chunkIndex}_{elementIndex}`). -/
def inChunkNames {V : Type} (k : String) (i : Nat) (chunks : List (List V)) :
    List (List String) :=
  mapWithIndex (fun cidx arr => mapWithIndex (fun j _ => pname k [i, cidx, j]) arr) chunks

/-- Semantics of the emitted `[k] BETWEEN IIF(@p0 < @p1, @p0, @p1) AND
IIF(@p0 > @p1, @p0, @p1)` fragment: the two named parameters `{k}_{i}_0` and
`{k}_{i}_1` are resolved from the bound parameter record, the two `IIF`
selections pick the smaller and the larger operand, and the row satisfies the
predicate when it lies in the closed interval between them. -/
def evalBetweenFragment {V : Type} [LinearOrder V] (params : List (String × ValueKey V))
    (k : String) (i : Nat) (row : V) : Bool :=
  match params.lookup (pname k [i, 0]), params.lookup (pname k [i, 1]) with
  | some p0, some p1 =>
    let lower := if p0.value < p1.value then p0.value else p1.value
    let upper := if p0.value > p1.value then p0.value else p1.value
    decide (lower ≤ row ∧ row ≤ upper)
  | _, _ => false

/-- The chunked parameter bindings emitted for field `k` of item `i` (the
else-branch of `kvForField` on a non-empty array value). -/
def chunkKvs {V : Type} (k : String) (i : Nat) (chunks : List (List V)) :
    List (String × ValueKey V) :=
  (mapWithIndex (fun cidx arr =>
    mapWithIndex (fun j v => (pname k [i, cidx, j], ⟨v, k⟩)) arr) chunks).flatten

/-- The id values one item contributes to `mergeEntityParametersById`: a
non-nil plain scalar `id` contributes itself, a plain array `id` its elements. -/
def idValuesPlain {V : Type} (item : Item V) : List V :=
  match item.lookup "id" with
  | some (.plain (.scalar (some v))) => [v]
  | some (.plain (.arr l)) => l
  | _ => []

/-- The flat (itemIndex, columnName) pair list that `getColumnLists` groups. -/
def colPairsFrom {V : Type} (i0 : Nat) (items : List (Item V)) : List (Nat × String) :=
  (mapWithIndexFrom (fun i item => item.map (fun p => (i, p.1))) i0 items).flatten

/-- First group with the given serialized key. -/
def findGroup : List ColumnGroup → String → Option ColumnGroup
  | [], _ => none
  | g :: rest, key => if g.sortedKey = key then some g else findGroup rest key

/-- The item indices collected under the given serialized key. -/
def idsOfGroup (gs : List ColumnGroup) (key : String) : List Nat :=
  match findGroup gs key with
  | some g => g.ids
  | none => []

/-- The character data of the comma-joined list body of a JSON string array. -/
def jsonBodyData : List String → List Char
  | [] => []
  | [s] => '"' :: s.data.flatMap jsonEscChar ++ ['"']
  | s :: r :: rest => '"' :: s.data.flatMap jsonEscChar ++ '"' :: ',' :: jsonBodyData (r :: rest)

/-- A two-item batch whose items have different field sets. -/
def itemsC8 : List (Item Nat) :=
  [[("a", .plain (.scalar (some 1)))], [("b", .plain (.scalar (some 2)))]]

/-! ### Theorems -/

theorem digitVal_digitChr : ∀ d : Nat, d < 10 → digitVal (digitChr d) = d := by decide

theorem digitChr_ne_underscore : ∀ d : Nat, d < 10 → digitChr d ≠ '_' := by decide

theorem natStrAux_parse : ∀ fuel n : Nat, n < fuel →
    (natStrAux fuel n).data.foldl (fun a c => a * 10 + digitVal c) 0 = n := by
  intro fuel
  induction fuel with
  | zero => intro n h; omega
  | succ f ih =>
    intro n h
    by_cases h10 : n < 10
    · simp only [natStrAux, if_pos h10]
      have : ((digitChr n).toString).data = [digitChr n] := rfl
      simp [this, digitVal_digitChr n h10]
    · simp only [natStrAux, if_neg h10]
      have hdata : ((natStrAux f (n / 10)) ++ (digitChr (n % 10)).toString).data
          = (natStrAux f (n / 10)).data ++ [digitChr (n % 10)] := by
        rw [String.data_append]; rfl
      have hlt : n / 10 < f := by omega
      have hmod : n % 10 < 10 := Nat.mod_lt _ (by omega)
      rw [hdata, List.foldl_append]
      simp only [List.foldl]
      rw [ih (n / 10) hlt]
      rw [digitVal_digitChr _ hmod]
      omega

theorem parse_natStr (n : Nat) : parseNatChars (natStr n).data = n :=
  natStrAux_parse (n + 1) n (Nat.lt_succ_self n)

theorem natStr_inj {m n : Nat} (h : natStr m = natStr n) : m = n := by
  have := parse_natStr m
  rw [h, parse_natStr] at this
  omega

theorem natStrAux_chars : ∀ fuel n : Nat, ∀ c ∈ (natStrAux fuel n).data, ∃ d < 10, c = digitChr d := by
  intro fuel
  induction fuel with
  | zero => intro n c hc; simp [natStrAux] at hc
  | succ f ih =>
    intro n c hc
    by_cases h10 : n < 10
    · simp only [natStrAux, if_pos h10] at hc
      have : ((digitChr n).toString).data = [digitChr n] := rfl
      rw [this] at hc
      simp at hc
      exact ⟨n, h10, hc⟩
    · simp only [natStrAux, if_neg h10] at hc
      rw [String.data_append] at hc
      rcases List.mem_append.mp hc with h1 | h2
      · exact ih _ c h1
      · have : ((digitChr (n % 10)).toString).data = [digitChr (n % 10)] := rfl
        rw [this] at h2
        simp at h2
        exact ⟨n % 10, Nat.mod_lt _ (by omega), h2⟩

theorem natStr_ne_chars {n : Nat} {x : Char} (hx : ∀ d < 10, digitChr d ≠ x) :
    ∀ c ∈ (natStr n).data, c ≠ x := by
  intro c hc
  obtain ⟨d, hd, rfl⟩ := natStrAux_chars _ _ c hc
  exact hx d hd

theorem natStr_usc_free (n : Nat) : ∀ c ∈ (natStr n).data, c ≠ '_' :=
  natStr_ne_chars (by decide)

/-- Generic separator cancellation: if a character `ch` occurs in neither `a`
nor `b`, then `a ++ ch :: r = b ++ ch :: r'` forces `a = b` and `r = r'`. -/
theorem sepCancel {ch : Char} : ∀ {a b r r' : List Char},
    (∀ c ∈ a, c ≠ ch) → (∀ c ∈ b, c ≠ ch) → a ++ ch :: r = b ++ ch :: r' →
    a = b ∧ r = r' := by
  intro a
  induction a with
  | nil =>
    intro b r r' _ hb h
    cases b with
    | nil => simpa using h
    | cons x xs =>
      exfalso
      simp only [List.nil_append, List.cons_append, List.cons.injEq] at h
      exact hb x (List.mem_cons_self x xs) h.1.symm
  | cons x xs ih =>
    intro b r r' ha hb h
    cases b with
    | nil =>
      exfalso
      simp only [List.cons_append, List.nil_append, List.cons.injEq] at h
      exact ha x (List.mem_cons_self x xs) h.1
    | cons y ys =>
      simp only [List.cons_append, List.cons.injEq] at h
      obtain ⟨rfl, h2⟩ := h
      have := ih (fun c hc => ha c (List.mem_cons_of_mem _ hc))
        (fun c hc => hb c (List.mem_cons_of_mem _ hc)) h2
      exact ⟨by rw [this.1], this.2⟩

theorem pname_data : ∀ (l : List Nat) (k : String), (pname k l).data = k.data ++ sfxData l := by
  intro l
  induction l with
  | nil => intro k; simp [pname, sfxData]
  | cons n rest ih =>
    intro k
    show (pname (k ++ "_" ++ natStr n) rest).data = _
    rw [ih]
    rw [String.data_append, String.data_append]
    simp [sfxData]

theorem sfx_digits_cancel : ∀ {n m : Nat} {r r' : List Nat},
    (natStr n).data ++ sfxData r = (natStr m).data ++ sfxData r' →
    n = m ∧ sfxData r = sfxData r' := by
  intro n m r r' h
  cases r with
  | nil =>
    cases r' with
    | nil =>
      simp only [sfxData, List.append_nil] at h
      exact ⟨natStr_inj (String.ext h), rfl⟩
    | cons b r₂ =>
      exfalso
      have hmem : '_' ∈ (natStr n).data := by
        have : '_' ∈ (natStr m).data ++ sfxData (b :: r₂) := by
          simp [sfxData]
        rw [← h] at this
        simpa [sfxData] using this
      exact natStr_usc_free n _ hmem rfl
  | cons a r₂ =>
    cases r' with
    | nil =>
      exfalso
      have hmem : '_' ∈ (natStr m).data := by
        have : '_' ∈ (natStr n).data ++ sfxData (a :: r₂) := by
          simp [sfxData]
        rw [h] at this
        simpa [sfxData] using this
      exact natStr_usc_free m _ hmem rfl
    | cons b r₂' =>
      simp only [sfxData] at h
      have := sepCancel (natStr_usc_free n) (natStr_usc_free m) h
      refine ⟨natStr_inj (String.ext this.1), ?_⟩
      simp [sfxData, this.2]

theorem sfxData_inj : ∀ {l₁ l₂ : List Nat}, sfxData l₁ = sfxData l₂ → l₁ = l₂ := by
  intro l₁
  induction l₁ with
  | nil =>
    intro l₂ h
    cases l₂ with
    | nil => rfl
    | cons b r => simp [sfxData] at h
  | cons a r ih =>
    intro l₂ h
    cases l₂ with
    | nil => simp [sfxData] at h
    | cons b r' =>
      simp only [sfxData, List.cons.injEq, true_and] at h
      obtain ⟨ha, hr⟩ := sfx_digits_cancel (n := a) (m := b) (by simpa using h)
      exact by rw [ha, ih hr]

theorem pname_cancel_left {k : String} {l₁ l₂ : List Nat}
    (h : pname k l₁ = pname k l₂) : l₁ = l₂ := by
  have : k.data ++ sfxData l₁ = k.data ++ sfxData l₂ := by
    rw [← pname_data, ← pname_data, h]
  exact sfxData_inj (List.append_cancel_left this)

theorem pname_inj {k₁ k₂ : String} {l₁ l₂ : List Nat}
    (h₁ : UscFree k₁) (h₂ : UscFree k₂) (h : pname k₁ l₁ = pname k₂ l₂) :
    k₁ = k₂ ∧ l₁ = l₂ := by
  have hd : k₁.data ++ sfxData l₁ = k₂.data ++ sfxData l₂ := by
    rw [← pname_data, ← pname_data, h]
  cases l₁ with
  | nil =>
    cases l₂ with
    | nil =>
      simp only [sfxData, List.append_nil] at hd
      exact ⟨String.ext hd, rfl⟩
    | cons b r =>
      exfalso
      have hmem : '_' ∈ k₁.data := by
        have : '_' ∈ k₂.data ++ sfxData (b :: r) := by simp [sfxData]
        rw [← hd] at this
        simpa [sfxData] using this
      exact h₁ _ hmem rfl
  | cons a r =>
    cases l₂ with
    | nil =>
      exfalso
      have hmem : '_' ∈ k₂.data := by
        have : '_' ∈ k₁.data ++ sfxData (a :: r) := by simp [sfxData]
        rw [hd] at this
        simpa [sfxData] using this
      exact h₂ _ hmem rfl
    | cons b r' =>
      simp only [sfxData] at hd
      obtain ⟨hk, ht⟩ := sepCancel h₁ h₂ hd
      obtain ⟨ha, hr⟩ := sfx_digits_cancel (n := a) (m := b) ht
      exact ⟨String.ext hk, by rw [ha, sfxData_inj hr]⟩

theorem chunkAux_join {V : Type} {n : Nat} (hn : 1 ≤ n) :
    ∀ (fuel : Nat) (l : List V), l.length ≤ fuel → (chunkAux n fuel l).flatten = l := by
  intro fuel
  induction fuel with
  | zero =>
    intro l hl
    have : l = [] := List.eq_nil_of_length_eq_zero (Nat.le_zero.mp hl)
    subst this
    rfl
  | succ f ih =>
    intro l hl
    cases l with
    | nil => rfl
    | cons x xs =>
      show ((x :: xs).take n :: chunkAux n f ((x :: xs).drop n)).flatten = x :: xs
      have hdrop : ((x :: xs).drop n).length ≤ f := by
        rw [List.length_drop]
        simp only [List.length_cons] at hl ⊢
        omega
      simp only [List.flatten]
      rw [ih _ hdrop, List.take_append_drop]

theorem chunkList_join {V : Type} {l : List V} {n : Nat} (hn : 1 ≤ n) :
    (chunkList l n).flatten = l := by
  unfold chunkList
  rw [if_neg (by omega)]
  exact chunkAux_join hn l.length l (Nat.le_refl _)

theorem uniq_fold_nodup {V : Type} [DecidableEq V] :
    ∀ (l acc : List V), acc.Nodup →
      (l.foldl (fun acc x => if x ∈ acc then acc else acc ++ [x]) acc).Nodup := by
  intro l
  induction l with
  | nil => intro acc h; exact h
  | cons x xs ih =>
    intro acc h
    simp only [List.foldl]
    by_cases hx : x ∈ acc
    · rw [if_pos hx]; exact ih acc h
    · rw [if_neg hx]
      refine ih _ ?_
      simp [List.nodup_append, h, hx]

theorem uniqList_nodup {V : Type} [DecidableEq V] (l : List V) : (uniqList l).Nodup :=
  uniq_fold_nodup l [] List.nodup_nil

theorem uniq_fold_mem {V : Type} [DecidableEq V] :
    ∀ (l acc : List V) (y : V),
      (y ∈ l.foldl (fun acc x => if x ∈ acc then acc else acc ++ [x]) acc) ↔ (y ∈ acc ∨ y ∈ l) := by
  intro l
  induction l with
  | nil => intro acc y; simp
  | cons x xs ih =>
    intro acc y
    simp only [List.foldl]
    by_cases hx : x ∈ acc
    · rw [if_pos hx, ih]
      constructor
      · rintro (h | h)
        · exact Or.inl h
        · exact Or.inr (List.mem_cons_of_mem _ h)
      · rintro (h | h)
        · exact Or.inl h
        · rcases List.mem_cons.mp h with rfl | h
          · exact Or.inl hx
          · exact Or.inr h
    · rw [if_neg hx, ih]
      simp only [List.mem_append, List.mem_singleton, List.mem_cons]
      tauto

theorem uniqList_mem {V : Type} [DecidableEq V] (l : List V) (y : V) :
    y ∈ uniqList l ↔ y ∈ l := by
  unfold uniqList
  rw [uniq_fold_mem]
  simp

/-! ## Supporting lemmas -/

theorem lookup_none_of_not_mem {β : Type} {k : String} :
    ∀ {r : List (String × β)}, k ∉ r.map Prod.fst → r.lookup k = none := by
  intro r
  induction r with
  | nil => intro _; rfl
  | cons p rest ih =>
    intro h
    simp only [List.map_cons, List.mem_cons, not_or] at h
    obtain ⟨h1, h2⟩ := h
    cases p with
    | mk pk pv =>
      show List.lookup k ((pk, pv) :: rest) = none
      simp only [List.lookup, beq_eq_false_iff_ne.mpr h1]
      exact ih h2

theorem lookup_of_mem_nodup {β : Type} {k : String} {v : β} :
    ∀ {r : List (String × β)}, (r.map Prod.fst).Nodup → (k, v) ∈ r → r.lookup k = some v := by
  intro r
  induction r with
  | nil => intro _ h; simp at h
  | cons p rest ih =>
    intro hnd hmem
    simp only [List.map_cons, List.nodup_cons] at hnd
    rcases List.mem_cons.mp hmem with rfl | hmem'
    · show List.lookup k ((k, v) :: rest) = some v
      simp [List.lookup]
    · cases p with
      | mk pk pv =>
        have hne : k ≠ pk := by
          rintro rfl
          exact hnd.1 (by exact List.mem_map.mpr ⟨(k, v), hmem', rfl⟩)
        show List.lookup k ((pk, pv) :: rest) = some v
        simp only [List.lookup, beq_eq_false_iff_ne.mpr hne]
        exact ih hnd.2 hmem'

theorem recordInsert_append {β : Type} (r : List (String × β)) (k : String) (v : β)
    (h : k ∉ r.map Prod.fst) : recordInsert r k v = r ++ [(k, v)] := by
  unfold recordInsert
  rw [lookup_none_of_not_mem h]
  rfl

theorem recordFold_eq_self {β : Type} :
    ∀ (kvs acc : List (String × β)),
      ((acc ++ kvs).map Prod.fst).Nodup →
      kvs.foldl (fun r p => recordInsert r p.1 p.2) acc = acc ++ kvs := by
  intro kvs
  induction kvs with
  | nil => intro acc _; simp
  | cons p rest ih =>
    intro acc h
    simp only [List.foldl]
    have hk : p.1 ∉ acc.map Prod.fst := by
      intro hmem
      rw [List.map_append] at h
      rcases (List.nodup_append.mp h) with ⟨_, _, hdisj⟩
      exact hdisj hmem (by simp)
    rw [recordInsert_append _ _ _ hk]
    have := ih (acc ++ [p]) (by simpa using h)
    simpa using this

/-! ## Claims -/

/-- C2: for every field whose value is an empty array, `toGroupParametersSql`
emits the fragment `1=1` (always true) when the operator is `!=` or `NOT IN`
and the fragment `1=0` (always false) for every other operator, and
`toGroupParametersKeyValue` emits no bound parameter for that field. -/
theorem claim_C2_empty_array_compilation {V : Type} (t : String) (a : Method)
    (k : String) (op : Operator) :
    toGroupParametersSql t a [[(k, FieldValue.query ⟨.arr ([] : List V), some op⟩)]] {} =
      .ok [(0, [if op = .ne ∨ op = .notIn then "1=1" else "1=0"])] ∧
    toGroupParametersKeyValue t a [[(k, FieldValue.query ⟨.arr ([] : List V), some op⟩)]] {} =
      .ok [] := by
  refine ⟨?_, rfl⟩
  cases op <;> rfl

/-- C5 (counterexample): the claim says a BETWEEN value of any length other
than 2, *including the empty array*, raises the invalid-BETWEEN error.  The code
handles the empty array before the BETWEEN check: it compiles to the `1=0`
fragment with no bound parameters and no error is raised. -/
theorem claim_C5_empty_between_counterexample :
    toGroupParametersSql "t" .find
      [[("a", FieldValue.query ⟨.arr ([] : List Nat), some .between⟩)]] {} =
      .ok [(0, ["1=0"])] ∧
    toGroupParametersKeyValue "t" .find
      [[("a", FieldValue.query ⟨.arr ([] : List Nat), some .between⟩)]] {} =
      .ok [] := by
  exact ⟨rfl, rfl⟩

/-- C5 (amended): for every *non-empty* array value with operator BETWEEN whose
length is not 2, both `toGroupParametersSql` and `toGroupParametersKeyValue`
fail with the invalid-BETWEEN `SqlError` naming the table and action, and no
SQL fragment is produced; the empty array instead falls under the empty-array
rule (`1=0` fragment, no parameters, no error). -/
theorem claim_C5_invalid_between {V : Type} (t : String) (a : Method) (k : String)
    (l : List V) (opts : SqlOptions) (kopts : KvOptions V)
    (hcols : opts.columnsList = none ∨ k ∈ opts.columnsList.getD [])
    (h1 : l ≠ []) (h2 : l.length ≠ 2) :
    toGroupParametersSql t a [[(k, FieldValue.query ⟨.arr l, some .between⟩)]] opts =
      .error (.invalidBetween t a) ∧
    toGroupParametersKeyValue t a [[(k, FieldValue.query ⟨.arr l, some .between⟩)]] kopts =
      .error (.invalidBetween t a) := by
  have hlen : ¬ l.length = 0 := by simpa using h1
  have hwl : ¬ (opts.columnsList.isSome ∧ k ∉ opts.columnsList.getD []) := by
    rcases hcols with h | h
    · simp [h]
    · intro hc
      exact hc.2 h
  constructor
  · simp only [toGroupParametersSql, mapEntityItems, mapItemsFrom, mapFields,
      sqlFragmentForField, fieldView, Option.getD_some]
    simp only [if_neg hwl, if_neg hlen, if_pos trivial, if_pos h2]
    rfl
  · simp only [toGroupParametersKeyValue, mapEntityItems, mapItemsFrom, mapFields, kvForField,
      fieldView, Option.getD_some]
    simp only [if_neg hlen, if_pos trivial, if_pos h2]
    rfl

/-- C5 (witness): a three-element BETWEEN array on a concrete table fails with
the invalid-BETWEEN error in both compilers. -/
theorem claim_C5_invalid_between_witness :
    toGroupParametersSql "t" .find
      [[("a", FieldValue.query ⟨.arr [1, 2, 3], some .between⟩)]] ({} : SqlOptions) =
      .error (.invalidBetween "t" .find) ∧
    toGroupParametersKeyValue "t" .find
      [[("a", FieldValue.query ⟨.arr ([1, 2, 3] : List Nat), some .between⟩)]] {} =
      .error (.invalidBetween "t" .find) :=
  claim_C5_invalid_between "t" .find "a" [1, 2, 3] {} {} (Or.inl rfl) (by decide) (by decide)

/-- C9: for every 2-element BETWEEN value `[a, b]`, the compiled query is
semantically order-independent: the emitted SQL fragments for `[x, y]` and
`[y, x]` are identical, and the evaluated predicate under the respective bound
parameters is satisfied by exactly the same rows (the fragment selects the
smaller and the larger operand via `IIF` before applying BETWEEN). -/
theorem claim_C9_between_order_independent {V : Type} [LinearOrder V] (t : String)
    (a : Method) (k : String) (x y row : V) :
    toGroupParametersSql t a [[(k, FieldValue.query ⟨.arr [x, y], some .between⟩)]] {} =
      toGroupParametersSql t a [[(k, FieldValue.query ⟨.arr [y, x], some .between⟩)]] {} ∧
    ∀ ps ps',
      getParams t a [[(k, FieldValue.query ⟨.arr [x, y], some .between⟩)]] {} = .ok ps →
      getParams t a [[(k, FieldValue.query ⟨.arr [y, x], some .between⟩)]] {} = .ok ps' →
      evalBetweenFragment ps k 0 row = evalBetweenFragment ps' k 0 row := by
  have hne : (pname k [0, 0] : String) ≠ pname k [0, 1] := by
    intro h
    have := pname_cancel_left h
    simp at this
  have hnd : ([(pname k [0, 0], (⟨x, k⟩ : ValueKey V)), (pname k [0, 1], ⟨y, k⟩)].map
      Prod.fst).Nodup := by
    simp [hne]
  have hnd' : ([(pname k [0, 0], (⟨y, k⟩ : ValueKey V)), (pname k [0, 1], ⟨x, k⟩)].map
      Prod.fst).Nodup := by
    simp [hne]
  refine ⟨rfl, ?_⟩
  intro ps ps' h h'
  have hps : ps = [(pname k [0, 0], ⟨x, k⟩), (pname k [0, 1], ⟨y, k⟩)] := by
    have hgp : getParams t a [[(k, FieldValue.query ⟨.arr [x, y], some .between⟩)]]
        ({} : KvOptions V) =
        .ok ([(pname k [0, 0], ⟨x, k⟩), (pname k [0, 1], ⟨y, k⟩)].foldl
          (fun r p => recordInsert r p.1 p.2) []) := rfl
    rw [hgp] at h
    rw [recordFold_eq_self _ [] (by simpa using hnd)] at h
    simpa using h.symm
  have hps' : ps' = [(pname k [0, 0], ⟨y, k⟩), (pname k [0, 1], ⟨x, k⟩)] := by
    have hgp : getParams t a [[(k, FieldValue.query ⟨.arr [y, x], some .between⟩)]]
        ({} : KvOptions V) =
        .ok ([(pname k [0, 0], ⟨y, k⟩), (pname k [0, 1], ⟨x, k⟩)].foldl
          (fun r p => recordInsert r p.1 p.2) []) := rfl
    rw [hgp] at h'
    rw [recordFold_eq_self _ [] (by simpa using hnd')] at h'
    simpa using h'.symm
  subst hps hps'
  unfold evalBetweenFragment
  rw [lookup_of_mem_nodup (v := (⟨x, k⟩ : ValueKey V)) hnd (by simp),
    lookup_of_mem_nodup (v := (⟨y, k⟩ : ValueKey V)) hnd (by simp),
    lookup_of_mem_nodup (v := (⟨y, k⟩ : ValueKey V)) hnd' (by simp),
    lookup_of_mem_nodup (v := (⟨x, k⟩ : ValueKey V)) hnd' (by simp)]
  have hlo : (if x < y then x else y) = (if y < x then y else x) := by
    rcases lt_trichotomy x y with hc | hc | hc
    · rw [if_pos hc, if_neg (asymm hc)]
    · subst hc; simp
    · rw [if_neg (asymm hc), if_pos hc]
  have hhi : (if x > y then x else y) = (if y > x then y else x) := by
    rcases lt_trichotomy x y with hc | hc | hc
    · rw [if_neg (asymm hc), if_pos hc]
    · subst hc; simp
    · rw [if_pos hc, if_neg (asymm hc)]
  simp only [hlo, hhi]

/-- C9 (witness): the concrete BETWEEN values `[5, 1]` and `[1, 5]` produce
bound-parameter records under which the evaluated predicate agrees at row 3. -/
theorem claim_C9_between_order_independent_witness :
    evalBetweenFragment [("a_0_0", (⟨5, "a"⟩ : ValueKey Nat)), ("a_0_1", ⟨1, "a"⟩)] "a" 0 3 =
    evalBetweenFragment [("a_0_0", (⟨1, "a"⟩ : ValueKey Nat)), ("a_0_1", ⟨5, "a"⟩)] "a" 0 3 :=
  (claim_C9_between_order_independent "t" .find "a" 5 1 3).2 _ _ (by decide) (by decide)

/-- C4 (counterexample): the claim says every update/delete call containing an
item without the required `id` column raises the missing-required-column
`DaoError`.  On a mixed batch, the cleaning step silently drops the item
without `id` and the call proceeds with the remaining item - no error. -/
theorem claim_C4_mixed_batch_counterexample :
    defaultBeforeHook (V := Nat) Except.ok "C"
      [[("id", FieldValue.plain (.scalar (some 1))), ("a", FieldValue.plain (.scalar (some 2)))],
        [("a", FieldValue.plain (.scalar (some 3)))]]
      .update (some (.scalar "id")) =
      .ok [[("id", FieldValue.plain (.scalar (some 1))),
        ("a", FieldValue.plain (.scalar (some 2)))]] := rfl

/-- C4 (amended): in the default before-hook, items lacking the required column
(after dropping nil-valued fields and empty items) are silently filtered out;
the missing-required-column `DaoError` (`Missing id` when `columnFiltered` is
the scalar string `id`, `No columns` otherwise) is raised exactly when no item
remains after cleaning and the action is not `find`; otherwise the cleaned
batch is passed on to field validation. -/
theorem claim_C4_missing_required_column {V : Type}
    (validate : List (Item V) → Except DaoErr (List (Item V)))
    (cn : String) (data : List (Item V)) (action : Method) (cf : Option MaybeArrayStr) :
    (cleanParameters data cf = [] → action ≠ .find →
      defaultBeforeHook validate cn data action cf =
        .error (if cf = some (.scalar "id") then .noId cn action else .noColumn cn action)) ∧
    (cleanParameters data cf ≠ [] →
      defaultBeforeHook validate cn data action cf = validate (cleanParameters data cf)) ∧
    (action = .find →
      defaultBeforeHook validate cn data action cf = validate (cleanParameters data cf)) := by
  unfold defaultBeforeHook
  refine ⟨?_, ?_, ?_⟩
  · intro h1 h2
    rw [if_pos ⟨by simp [h1], h2⟩]
    by_cases hid : cf = some (.scalar "id")
    · rw [if_pos hid, if_pos hid]
    · rw [if_neg hid, if_neg hid]
  · intro h1
    rw [if_neg ?_]
    rintro ⟨hl, _⟩
    exact h1 (List.length_eq_zero.mp hl)
  · intro h2
    rw [if_neg ?_]
    rintro ⟨_, hne⟩
    exact hne h2

/-- C4 (witness): an update whose only item loses all fields to nil-cleaning
raises `Missing id` before any statement is built. -/
theorem claim_C4_missing_required_column_witness :
    defaultBeforeHook (V := Nat) Except.ok "C" [[("a", FieldValue.plain (.scalar none))]]
      .update (some (.scalar "id")) = .error (.noId "C" .update) := by
  have h := (claim_C4_missing_required_column (V := Nat) Except.ok "C"
    [[("a", FieldValue.plain (.scalar none))]] .update (some (.scalar "id"))).1
    (by decide) (by decide)
  simpa using h

theorem prepareUpdate_drops_nil_key {V : Type} (A B : List (Item V)) (bad : Item V)
    (kc : String)
    (hbad : bad.lookup kc = none ∨ bad.lookup kc = some (.plain (.scalar none))) :
    prepareUpdateEntityParamsByKey (A ++ bad :: B) kc =
      prepareUpdateEntityParamsByKey (A ++ B) kc := by
  unfold prepareUpdateEntityParamsByKey
  rw [List.flatMap_append, List.flatMap_append, List.flatMap_cons]
  rcases hbad with h | h <;> simp [h, jsIsNil]

theorem updateByKeySql_congr_prepared {V : Type} (t : String) (i1 i2 : List (Item V))
    (opts : KvOptions V)
    (h : prepareUpdateEntityParamsByKey i1 "id" = prepareUpdateEntityParamsByKey i2 "id") :
    updateByKeySql t i1 "id" opts = updateByKeySql t i2 "id" opts := by
  unfold updateByKeySql
  rw [if_neg (by simp), if_neg (by simp), h]

theorem prepareUpdate_expands_array_key {V : Type} (item : Item V) (l : List V)
    (kc : String) (hitem : item.lookup kc = some (.plain (.arr l))) :
    prepareUpdateEntityParamsByKey [item] kc =
      l.map (fun v => setField item kc (.plain (.scalar (some v)))) := by
  unfold prepareUpdateEntityParamsByKey
  simp [hitem, jsIsNil, ensureArrayOfValue, List.map_map, Function.comp]

/-- C10: for update-by-key compilation with the default key column `id`, an
item whose `id` is null or absent is silently dropped - it produces no MERGE
row, no bound parameters, and no error, so the compiled query is identical to
the one without that item - while an item whose `id` holds an array of N
values expands into exactly N rows sharing the item's other field values. -/
theorem claim_C10_update_key_rows {V : Type} (t : String) (A B : List (Item V))
    (bad item : Item V) (l : List V) (opts : KvOptions V)
    (hbad : bad.lookup "id" = none ∨ bad.lookup "id" = some (.plain (.scalar none)))
    (hitem : item.lookup "id" = some (.plain (.arr l))) :
    prepareUpdateEntityParamsByKey (A ++ bad :: B) "id" =
      prepareUpdateEntityParamsByKey (A ++ B) "id" ∧
    updateByKeySql t (A ++ bad :: B) "id" opts = updateByKeySql t (A ++ B) "id" opts ∧
    prepareUpdateEntityParamsByKey [item] "id" =
      l.map (fun v => setField item "id" (.plain (.scalar (some v)))) := by
  have h1 := prepareUpdate_drops_nil_key A B bad "id" hbad
  exact ⟨h1, updateByKeySql_congr_prepared t _ _ opts h1,
    prepareUpdate_expands_array_key item l "id" hitem⟩

/-- C10 (witness): at a concrete batch, an item without `id` leaves the
compiled MERGE unchanged and a 2-element array `id` expands into 2 rows. -/
theorem claim_C10_update_key_rows_witness :
    prepareUpdateEntityParamsByKey
        ([] ++ [("a", FieldValue.plain (.scalar (some (1 : Nat))))] :: []) "id" =
      prepareUpdateEntityParamsByKey ([] ++ [] : List (Item Nat)) "id" ∧
    updateByKeySql "t" ([] ++ [("a", FieldValue.plain (.scalar (some (1 : Nat))))] :: []) "id" {} =
      updateByKeySql "t" ([] ++ [] : List (Item Nat)) "id" {} ∧
    prepareUpdateEntityParamsByKey
        [[("id", FieldValue.plain (.arr [7, 8])),
          ("b", FieldValue.plain (.scalar (some (9 : Nat))))]] "id" =
      [7, 8].map (fun v => setField
        [("id", FieldValue.plain (.arr [7, 8])), ("b", FieldValue.plain (.scalar (some 9)))]
        "id" (FieldValue.plain (.scalar (some v)))) :=
  claim_C10_update_key_rows "t" [] [] _ _ [7, 8] {} (Or.inl (by decide)) (by decide)

set_option maxRecDepth 8000

/-- C6 (code bug): with `skip = 0` supplied, no `take` and no explicit order,
`selectByColumnsSql` emits the `OFFSET … FETCH NEXT` paging clause (the paging
condition tests `!isNil`) while `buildOrderBySql` emits no ORDER BY at all (its
condition tests JavaScript truthiness, and `0` is falsy), so the generated SQL
contains OFFSET paging without any ORDER BY clause - contradicting the claim
(and invalid in T-SQL, where OFFSET-FETCH requires ORDER BY). -/
theorem claim_C6_offset_without_order_bug :
    selectByColumnsSql "t" ["created_at"] ([] : List (Item Nat)) { skip := some 0 } =
      .ok ⟨"\n    SELECT * FROM [t]\n    \n    OFFSET 0 ROWS FETCH NEXT 100 ROWS ONLY;\n  ", []⟩ ∧
    buildOrderBySql "t" ["created_at"] (some 0) none none none = .ok "" ∧
    List.IsInfix "OFFSET 0 ROWS FETCH NEXT 100 ROWS ONLY".data
      "\n    SELECT * FROM [t]\n    \n    OFFSET 0 ROWS FETCH NEXT 100 ROWS ONLY;\n  ".data ∧
    ¬ List.IsInfix "ORDER BY".data
      "\n    SELECT * FROM [t]\n    \n    OFFSET 0 ROWS FETCH NEXT 100 ROWS ONLY;\n  ".data := by
  refine ⟨rfl, rfl, ?_, ?_⟩ <;> decide

theorem mapWithIndexFrom_map {α β γ : Type} (f : Nat → α → β) (g : β → γ) :
    ∀ (i : Nat) (l : List α),
      (mapWithIndexFrom f i l).map g = mapWithIndexFrom (fun j a => g (f j a)) i l := by
  intro i l
  induction l generalizing i with
  | nil => rfl
  | cons x xs ih => simp [mapWithIndexFrom, ih]

theorem mapWithIndexFrom_const {α : Type} :
    ∀ (i : Nat) (l : List α), mapWithIndexFrom (fun _ a => a) i l = l := by
  intro i l
  induction l generalizing i with
  | nil => rfl
  | cons x xs ih => simp [mapWithIndexFrom, ih]

theorem mem_mapWithIndexFrom {α β : Type} {f : Nat → α → β} :
    ∀ {i : Nat} {l : List α} {y : β}, y ∈ mapWithIndexFrom f i l →
      ∃ j, i ≤ j ∧ ∃ a, a ∈ l ∧ y = f j a := by
  intro i l
  induction l generalizing i with
  | nil => intro y h; simp [mapWithIndexFrom] at h
  | cons x xs ih =>
    intro y h
    rcases List.mem_cons.mp h with rfl | h'
    · exact ⟨i, Nat.le_refl i, x, List.mem_cons_self x xs, rfl⟩
    · obtain ⟨j, hj, a, ha, rfl⟩ := ih h'
      exact ⟨j, by omega, a, List.mem_cons_of_mem _ ha, rfl⟩

theorem inner_chunk_names_nodup {V : Type} (k : String) (pre : List Nat) :
    ∀ (arr : List V) (j0 : Nat),
      (mapWithIndexFrom (fun j (_ : V) => pname k (pre ++ [j])) j0 arr).Nodup := by
  intro arr
  induction arr with
  | nil => intro j0; exact List.nodup_nil
  | cons v rest ih =>
    intro j0
    refine List.nodup_cons.mpr ⟨?_, ih (j0 + 1)⟩
    intro hmem
    obtain ⟨j, hj, a, _, heq⟩ := mem_mapWithIndexFrom hmem
    have := pname_cancel_left heq
    have : j0 = j := by
      have h2 := List.append_cancel_left this
      simpa using h2
    omega

theorem chunk_names_nodup {V : Type} (k : String) (i : Nat) :
    ∀ (chunks : List (List V)) (c0 : Nat),
      ((mapWithIndexFrom
        (fun c arr => mapWithIndexFrom (fun j (_ : V) => pname k [i, c, j]) 0 arr)
        c0 chunks).flatten).Nodup := by
  intro chunks
  induction chunks with
  | nil => intro c0; exact List.nodup_nil
  | cons arr rest ih =>
    intro c0
    show ((mapWithIndexFrom (fun j (_ : V) => pname k [i, c0, j]) 0 arr) ++
      (mapWithIndexFrom _ (c0 + 1) rest).flatten).Nodup
    rw [List.nodup_append]
    refine ⟨inner_chunk_names_nodup k [i, c0] arr 0, ih (c0 + 1), ?_⟩
    intro nm hmem1 hmem2
    obtain ⟨j, _, a, _, rfl⟩ := mem_mapWithIndexFrom hmem1
    obtain ⟨sub, hsub, hnm⟩ := List.mem_flatten.mp hmem2
    obtain ⟨c, hc, arr', _, rfl⟩ := mem_mapWithIndexFrom hsub
    obtain ⟨j', _, a', _, heq⟩ := mem_mapWithIndexFrom hnm
    have := pname_cancel_left heq
    simp only [List.cons.injEq] at this
    omega

theorem mapWithIndexFrom_congr {α β : Type} {f g : Nat → α → β}
    (h : ∀ j a, f j a = g j a) :
    ∀ (i : Nat) (l : List α), mapWithIndexFrom f i l = mapWithIndexFrom g i l := by
  intro i l
  induction l generalizing i with
  | nil => rfl
  | cons x xs ih => simp [mapWithIndexFrom, ih, h]

theorem inner_kvs_values {V : Type} (k : String) (pre : List Nat) :
    ∀ (arr : List V) (j0 : Nat),
      (mapWithIndexFrom (fun j (v : V) => (pname k (pre ++ [j]), (⟨v, k⟩ : ValueKey V))) j0 arr).map
        (fun p => p.2.value) = arr := by
  intro arr
  induction arr with
  | nil => intro j0; rfl
  | cons v rest ih => intro j0; simp [mapWithIndexFrom, ih]

theorem inner_kvs_names {V : Type} (k : String) (pre : List Nat) :
    ∀ (arr : List V) (j0 : Nat),
      (mapWithIndexFrom (fun j (v : V) => (pname k (pre ++ [j]), (⟨v, k⟩ : ValueKey V))) j0 arr).map
        Prod.fst = mapWithIndexFrom (fun j (_ : V) => pname k (pre ++ [j])) j0 arr := by
  intro arr
  induction arr with
  | nil => intro j0; rfl
  | cons v rest ih => intro j0; simp [mapWithIndexFrom, ih]

theorem chunkKvs_values_aux {V : Type} (k : String) (i : Nat) :
    ∀ (chunks : List (List V)) (c0 : Nat),
      ((mapWithIndexFrom (fun cidx arr =>
          mapWithIndexFrom (fun j (v : V) => (pname k [i, cidx, j], (⟨v, k⟩ : ValueKey V))) 0 arr)
        c0 chunks).flatten).map (fun p => p.2.value) = chunks.flatten := by
  intro chunks
  induction chunks with
  | nil => intro c0; rfl
  | cons arr rest ih =>
    intro c0
    have hin := inner_kvs_values k [i, c0] arr 0
    simp only [List.cons_append, List.nil_append] at hin
    simp only [mapWithIndexFrom, List.flatten_cons, List.map_append, ih (c0 + 1), hin]

theorem chunkKvs_values {V : Type} (k : String) (i : Nat) (chunks : List (List V)) :
    (chunkKvs k i chunks).map (fun p => p.2.value) = chunks.flatten :=
  chunkKvs_values_aux k i chunks 0

theorem chunkKvs_names_aux {V : Type} (k : String) (i : Nat) :
    ∀ (chunks : List (List V)) (c0 : Nat),
      ((mapWithIndexFrom (fun cidx arr =>
          mapWithIndexFrom (fun j (v : V) => (pname k [i, cidx, j], (⟨v, k⟩ : ValueKey V))) 0 arr)
        c0 chunks).flatten).map Prod.fst =
      (mapWithIndexFrom (fun c arr =>
        mapWithIndexFrom (fun j (_ : V) => pname k [i, c, j]) 0 arr) c0 chunks).flatten := by
  intro chunks
  induction chunks with
  | nil => intro c0; rfl
  | cons arr rest ih =>
    intro c0
    have hin := inner_kvs_names k [i, c0] arr 0
    simp only [List.cons_append, List.nil_append] at hin
    simp only [mapWithIndexFrom, List.flatten_cons, List.map_append, ih (c0 + 1), hin]

theorem chunkKvs_names_nodup {V : Type} (k : String) (i : Nat) (chunks : List (List V)) :
    ((chunkKvs k i chunks).map Prod.fst).Nodup := by
  unfold chunkKvs mapWithIndex
  rw [chunkKvs_names_aux k i chunks 0]
  exact chunk_names_nodup k i chunks 0

theorem mergeEntityParametersById_eq {V : Type} [DecidableEq V] (items : List (Item V)) :
    mergeEntityParametersById items =
      [[("id", .plain (.arr (uniqList (items.flatMap idValuesPlain))))]] := by
  have hstep : ∀ (acc : List V) (item : Item V),
      (match item.lookup "id" with
        | some (.plain (.scalar (some v))) => acc ++ [v]
        | some (.plain (.arr l)) => acc ++ l
        | _ => acc) = acc ++ idValuesPlain item := by
    intro acc item
    unfold idValuesPlain
    cases hx : item.lookup "id" with
    | none => simp
    | some fv =>
      cases fv with
      | plain mv =>
        cases mv with
        | scalar o => cases o <;> simp
        | arr l => simp
      | query q => simp
  have hfold : ∀ (l : List (Item V)) (acc : List V),
      l.foldl (fun acc item =>
        match item.lookup "id" with
        | some (.plain (.scalar (some v))) => acc ++ [v]
        | some (.plain (.arr l)) => acc ++ l
        | _ => acc) acc = acc ++ l.flatMap idValuesPlain := by
    intro l
    induction l with
    | nil => intro acc; simp
    | cons x xs ih =>
      intro acc
      rw [List.foldl_cons, hstep acc x, ih, List.flatMap_cons, List.append_assoc]
  unfold mergeEntityParametersById
  rw [hfold]
  simp

theorem lookup_pick_id {V : Type} (item : Item V) :
    (pickKeys item ["id"]).lookup "id" = item.lookup "id" := by
  cases h : item.lookup "id" with
  | none => simp [pickKeys, h]
  | some v => simp [pickKeys, h, List.lookup]

theorem idValuesPlain_pick {V : Type} (item : Item V) :
    idValuesPlain (pickKeys item ["id"]) = idValuesPlain item := by
  unfold idValuesPlain
  rw [lookup_pick_id]

theorem pname_group (k : String) (n : Nat) (rest : List Nat) :
    pname (pname k [n]) rest = pname k (n :: rest) := rfl

theorem kv_merged {V : Type} (t : String) (u : List V) (n : Option Nat) :
    toGroupParametersKeyValue t .delete [[("id", .plain (.arr u))]] ⟨n, id⟩ =
      .ok (if u.length = 0 then []
        else chunkKvs "id" 0 (chunkList u (n.getD DEFAULT_IN_CHUNK))) := by
  by_cases h : u.length = 0
  · obtain rfl : u = [] := List.length_eq_zero.mp h
    rfl
  · rw [if_neg h]
    simp only [toGroupParametersKeyValue, mapEntityItems, mapItemsFrom, mapFields, kvForField,
      fieldView, Option.getD_some]
    simp only [if_neg h]
    simp [Except.bind, bind, pure, Except.pure, chunkKvs, mapWithIndex, pname_group]

theorem sql_merged {V : Type} (t : String) (u : List V) (n : Option Nat) :
    toGroupParametersSql t .delete [[("id", .plain (.arr u))]] { inChunkSize := n } =
      .ok [(0, [if u.length = 0 then "1=0"
        else "(" ++ joinSep " OR " (mapWithIndex (fun cidx arr =>
          "[id] IN (" ++ joinSep ", "
            (mapWithIndex (fun j (_ : V) => "@" ++ pname "id" [0, cidx, j]) arr) ++ ")")
          (chunkList u (n.getD DEFAULT_IN_CHUNK))) ++ ")"])] := by
  by_cases h : u.length = 0
  · obtain rfl : u = [] := List.length_eq_zero.mp h
    rfl
  · rw [if_neg h]
    simp only [toGroupParametersSql, mapEntityItems, mapItemsFrom, mapFields,
      sqlFragmentForField, fieldView, Option.getD_some]
    simp only [if_neg h]
    simp [Except.bind, bind, pure, Except.pure, Except.map, groupByFst, insertGroup,
      mapWithIndex, pname_group]

theorem getParams_merged {V : Type} (t : String) (u : List V) (n : Option Nat) :
    getParams t .delete [[("id", .plain (.arr u))]] ⟨n, id⟩ =
      .ok (if u.length = 0 then []
        else chunkKvs "id" 0 (chunkList u (n.getD DEFAULT_IN_CHUNK))) := by
  unfold getParams
  rw [kv_merged]
  by_cases h : u.length = 0
  · simp [h, Except.bind, bind, pure, Except.pure]
  · simp only [if_neg h]
    have hnd := chunkKvs_names_nodup "id" 0 (chunkList u (n.getD DEFAULT_IN_CHUNK))
    show Except.ok ((chunkKvs "id" 0 (chunkList u (n.getD DEFAULT_IN_CHUNK))).foldl
      (fun r p => recordInsert r p.1 p.2) []) = _
    rw [recordFold_eq_self _ [] (by simpa using hnd)]
    simp

theorem merged_of_filtered {V : Type} [DecidableEq V] (items : List (Item V)) :
    mergeEntityParametersById (entityParametersFilter items (some (.scalar "id")) .inMode) =
      [[("id", .plain (.arr (uniqList (items.flatMap idValuesPlain))))]] := by
  rw [mergeEntityParametersById_eq]
  have key : ∀ (l : List (Item V)),
      (l.map (fun item => pickKeys item ["id"])).flatMap idValuesPlain =
        l.flatMap idValuesPlain := by
    intro l
    induction l with
    | nil => rfl
    | cons x xs ih =>
      simp only [List.map_cons, List.flatMap_cons, ih, idValuesPlain_pick]
  have hfe : entityParametersFilter items (some (.scalar "id")) .inMode =
      items.map (fun item => pickKeys item ["id"]) := rfl
  rw [hfe, key]

/-- C7: `deleteByIdSql` restricts each item to its `id` field, merges all id
values across items (flattening array-valued ids) into one deduplicated list,
and compiles exactly one `DELETE FROM [table] WHERE (…)` statement whose bound
key list is that deduplicated union, each id bound once. -/
theorem claim_C7_delete_dedup {V : Type} [DecidableEq V] (t : String)
    (items : List (Item V)) (n : Option Nat)
    (_hplain : ∀ item ∈ items, ∀ q, item.lookup "id" ≠ some (.query q))
    (hn : 1 ≤ n.getD DEFAULT_IN_CHUNK) :
    deleteByIdSql t items n =
      .ok ⟨"DELETE FROM [" ++ t ++ "]" ++ " WHERE (" ++
          (if (uniqList (items.flatMap idValuesPlain)).length = 0 then "1=0"
            else "(" ++ joinSep " OR " (mapWithIndex (fun cidx arr =>
              "[id] IN (" ++ joinSep ", "
                (mapWithIndex (fun j (_ : V) => "@" ++ pname "id" [0, cidx, j]) arr) ++ ")")
              (chunkList (uniqList (items.flatMap idValuesPlain)) (n.getD DEFAULT_IN_CHUNK)))
              ++ ")") ++ ");",
        if (uniqList (items.flatMap idValuesPlain)).length = 0 then []
          else chunkKvs "id" 0
            (chunkList (uniqList (items.flatMap idValuesPlain)) (n.getD DEFAULT_IN_CHUNK))⟩ ∧
    ((if (uniqList (items.flatMap idValuesPlain)).length = 0 then []
        else chunkKvs "id" 0
          (chunkList (uniqList (items.flatMap idValuesPlain)) (n.getD DEFAULT_IN_CHUNK))).map
      (fun p => p.2.value)) = uniqList (items.flatMap idValuesPlain) ∧
    (uniqList (items.flatMap idValuesPlain)).Nodup := by
  refine ⟨?_, ?_, uniqList_nodup _⟩
  · simp only [deleteByIdSql]
    rw [merged_of_filtered, getParams_merged, sql_merged]
    by_cases h : (uniqList (items.flatMap idValuesPlain)).length = 0
    · simp only [if_pos h]
      rfl
    · simp only [if_neg h]
      rfl
  · by_cases h : (uniqList (items.flatMap idValuesPlain)).length = 0
    · simp only [if_pos h]
      exact (List.length_eq_zero.mp h).symm
    · simp only [if_neg h]
      rw [chunkKvs_values, chunkList_join hn]

/-- C7 (witness): two items with overlapping id sets (`[1,2]` and `2`) compile
to one DELETE statement binding each id exactly once. -/
theorem claim_C7_delete_dedup_witness :
    deleteByIdSql "t" [[("id", FieldValue.plain (.arr [1, 2]))],
        [("id", FieldValue.plain (.scalar (some (2 : Nat))))]] none =
      .ok ⟨"DELETE FROM [t] WHERE (([id] IN (@id_0_0_0, @id_0_0_1)));",
        [("id_0_0_0", ⟨1, "id"⟩), ("id_0_0_1", ⟨2, "id"⟩)]⟩ := by
  have h := (claim_C7_delete_dedup "t"
    [[("id", FieldValue.plain (.arr [1, 2]))],
      [("id", FieldValue.plain (.scalar (some (2 : Nat))))]] none
    (by
      intro item hitem q
      simp only [List.mem_cons, List.not_mem_nil, or_false] at hitem
      rcases hitem with rfl | rfl <;> simp [List.lookup])
    (by decide)).1
  rw [h]
  decide

/-- C3 (counterexample): a scalar field named `a_0` and a BETWEEN field named
`a` in the same item both produce the parameter name `a_0_0`; the binding list
has a duplicate name and `getParams` loses the first binding. -/
theorem claim_C3_name_collision_counterexample :
    toGroupParametersKeyValue "t" .find
      [[("a_0", FieldValue.plain (.scalar (some (1 : Nat)))),
        ("a", FieldValue.query ⟨.arr [5, 6], some .between⟩)]] {} =
      .ok [("a_0_0", ⟨1, "a_0"⟩), ("a_0_0", ⟨5, "a"⟩), ("a_0_1", ⟨6, "a"⟩)] ∧
    ¬ (([("a_0_0", (⟨1, "a_0"⟩ : ValueKey Nat)), ("a_0_0", ⟨5, "a"⟩),
        ("a_0_1", ⟨6, "a"⟩)].map Prod.fst).Nodup) ∧
    getParams "t" .find
      [[("a_0", FieldValue.plain (.scalar (some (1 : Nat)))),
        ("a", FieldValue.query ⟨.arr [5, 6], some .between⟩)]] {} =
      .ok [("a_0_0", ⟨5, "a"⟩), ("a_0_1", ⟨6, "a"⟩)] := by
  refine ⟨by decide, by decide, by decide⟩

theorem mapWithIndexFrom_fst {α β γ : Type} (nf : Nat → α → β) (vf : Nat → α → γ) :
    ∀ (i : Nat) (l : List α),
      (mapWithIndexFrom (fun j a => (nf j a, vf j a)) i l).map Prod.fst =
        mapWithIndexFrom nf i l := by
  intro i l
  induction l generalizing i with
  | nil => rfl
  | cons x xs ih => simp [mapWithIndexFrom, ih]

theorem kvForField_names {V : Type} {t : String} {a : Method} {opts : KvOptions V}
    {v : MaybeArrayVal V} {k : String} {op : Operator} {i : Nat}
    {kvs : List (String × ValueKey V)}
    (h : kvForField t a opts v k op i = .ok kvs) :
    (kvs.map Prod.fst).Nodup ∧ ∀ nm ∈ kvs.map Prod.fst, ∃ sfx, nm = pname k (i :: sfx) := by
  cases v with
  | scalar o =>
    cases o with
    | none =>
      simp only [kvForField, Except.ok.injEq] at h
      subst h
      exact ⟨List.nodup_nil, by simp⟩
    | some x =>
      simp only [kvForField] at h
      by_cases hl : op = .likeOp
      · rw [if_pos hl] at h
        simp only [Except.ok.injEq] at h
        subst h
        refine ⟨by simp, ?_⟩
        intro nm hnm
        simp only [List.map_cons, List.map_nil, List.mem_singleton] at hnm
        exact ⟨[], by simpa using hnm⟩
      · rw [if_neg hl] at h
        simp only [Except.ok.injEq] at h
        subst h
        refine ⟨by simp, ?_⟩
        intro nm hnm
        simp only [List.map_cons, List.map_nil, List.mem_singleton] at hnm
        exact ⟨[], by simpa using hnm⟩
  | arr l =>
    simp only [kvForField] at h
    by_cases h0 : l.length = 0
    · rw [if_pos h0] at h
      simp only [Except.ok.injEq] at h
      subst h
      exact ⟨List.nodup_nil, by simp⟩
    · rw [if_neg h0] at h
      by_cases hb : op = .between
      · rw [if_pos hb] at h
        by_cases h2 : l.length ≠ 2
        · rw [if_pos h2] at h
          exact absurd h (by simp)
        · rw [if_neg h2] at h
          simp only [Except.ok.injEq] at h
          subst h
          constructor
          · simp only [mapWithIndex]
            rw [mapWithIndexFrom_fst (fun j _ => pname (pname k [i]) [j])
              (fun j v => (⟨v, k⟩ : ValueKey V)) 0 l]
            exact inner_chunk_names_nodup k [i] l 0
          · intro nm hnm
            simp only [mapWithIndex] at hnm
            rw [mapWithIndexFrom_fst (fun j _ => pname (pname k [i]) [j])
              (fun j v => (⟨v, k⟩ : ValueKey V)) 0 l] at hnm
            obtain ⟨j, _, x, _, rfl⟩ := mem_mapWithIndexFrom hnm
            exact ⟨[j], rfl⟩
      · rw [if_neg hb] at h
        by_cases hlk : op = .likeOp
        · rw [if_pos hlk] at h
          simp only [Except.ok.injEq] at h
          subst h
          constructor
          · simp only [mapWithIndex]
            rw [mapWithIndexFrom_fst (fun j _ => pname (pname k [i]) [j])
              (fun j v => (⟨opts.applyLike v, k⟩ : ValueKey V)) 0 l]
            exact inner_chunk_names_nodup k [i] l 0
          · intro nm hnm
            simp only [mapWithIndex] at hnm
            rw [mapWithIndexFrom_fst (fun j _ => pname (pname k [i]) [j])
              (fun j v => (⟨opts.applyLike v, k⟩ : ValueKey V)) 0 l] at hnm
            obtain ⟨j, _, x, _, rfl⟩ := mem_mapWithIndexFrom hnm
            exact ⟨[j], rfl⟩
        · rw [if_neg hlk] at h
          simp only [Except.ok.injEq] at h
          subst h
          constructor
          · exact chunkKvs_names_nodup k i _
          · intro nm hnm
            have heq := chunkKvs_names_aux k i
              (chunkList l (opts.inChunkSize.getD DEFAULT_IN_CHUNK)) 0
            have hnm' : nm ∈ ((mapWithIndexFrom (fun cidx arr => mapWithIndexFrom
                (fun j (v : V) => (pname k [i, cidx, j], (⟨v, k⟩ : ValueKey V))) 0 arr) 0
                (chunkList l (opts.inChunkSize.getD DEFAULT_IN_CHUNK))).flatten).map
                Prod.fst := hnm
            rw [heq] at hnm'
            obtain ⟨sub, hsub, hnmin⟩ := List.mem_flatten.mp hnm'
            obtain ⟨c, _, arr', _, rfl⟩ := mem_mapWithIndexFrom hsub
            obtain ⟨j, _, x, _, rfl⟩ := mem_mapWithIndexFrom hnmin
            exact ⟨[c, j], rfl⟩

theorem mapFields_names {V : Type} {t : String} {a : Method} {opts : KvOptions V} {i : Nat} :
    ∀ {item : Item V} {kvs : List (String × ValueKey V)},
      mapFields (fun v k op i => kvForField t a opts v k op i) i item = .ok kvs →
      (item.map Prod.fst).Nodup →
      (∀ p ∈ item, UscFree p.1) →
      (kvs.map Prod.fst).Nodup ∧
        ∀ nm ∈ kvs.map Prod.fst, ∃ k sfx, k ∈ item.map Prod.fst ∧ nm = pname k (i :: sfx) := by
  intro item
  induction item with
  | nil =>
    intro kvs h _ _
    simp only [mapFields, Except.ok.injEq] at h
    subst h
    exact ⟨List.nodup_nil, by simp⟩
  | cons p rest ih =>
    intro kvs h hnd husc
    obtain ⟨k0, fv0⟩ := p
    cases hr : kvForField t a opts (fieldView fv0).1 k0 (fieldView fv0).2 i with
    | error e =>
      rw [mapFields, hr] at h
      simp [Except.bind, bind] at h
    | ok r =>
      cases hrs : mapFields (fun v k op i => kvForField t a opts v k op i) i rest with
      | error e =>
        rw [mapFields, hr, hrs] at h
        simp [Except.bind, bind] at h
      | ok rs =>
        rw [mapFields, hr, hrs] at h
        simp only [Except.bind, bind, pure, Except.pure, Except.ok.injEq] at h
        subst h
        simp only [List.map_cons, List.nodup_cons] at hnd
        have husc0 : UscFree k0 := husc (k0, fv0) (List.mem_cons_self _ _)
        have huscr : ∀ p ∈ rest, UscFree p.1 :=
          fun q hq => husc q (List.mem_cons_of_mem _ hq)
        obtain ⟨hrnd, hrmem⟩ := kvForField_names hr
        obtain ⟨hsnd, hsmem⟩ := ih hrs hnd.2 huscr
        constructor
        · rw [List.map_append, List.nodup_append]
          refine ⟨hrnd, hsnd, ?_⟩
          intro nm hm1 hm2
          obtain ⟨s, rfl⟩ := hrmem nm hm1
          obtain ⟨k', s', hk', heq⟩ := hsmem _ hm2
          obtain ⟨q, hq, hq1⟩ := List.mem_map.mp hk'
          have husck' : UscFree k' := hq1 ▸ huscr q hq
          have hinj := pname_inj husc0 husck' heq
          rw [← hinj.1] at hk'
          exact hnd.1 hk' 
        · intro nm hnm
          rw [List.map_append, List.mem_append] at hnm
          rcases hnm with hm | hm
          · obtain ⟨s, rfl⟩ := hrmem nm hm
            exact ⟨k0, s, by simp, rfl⟩
          · obtain ⟨k', s', hk', heq⟩ := hsmem nm hm
            exact ⟨k', s', by simp [hk'], heq⟩

theorem mapItemsFrom_names {V : Type} {t : String} {a : Method} {opts : KvOptions V} :
    ∀ {items : List (Item V)} {i0 : Nat} {kvs : List (String × ValueKey V)},
      mapItemsFrom (fun v k op i => kvForField t a opts v k op i) items i0 = .ok kvs →
      (∀ item ∈ items, (item.map Prod.fst).Nodup) →
      (∀ item ∈ items, ∀ p ∈ item, UscFree p.1) →
      (kvs.map Prod.fst).Nodup ∧
        ∀ nm ∈ kvs.map Prod.fst, ∃ k i sfx, UscFree k ∧ i0 ≤ i ∧ nm = pname k (i :: sfx) := by
  intro items
  induction items with
  | nil =>
    intro i0 kvs h _ _
    simp only [mapItemsFrom, Except.ok.injEq] at h
    subst h
    exact ⟨List.nodup_nil, by simp⟩
  | cons item rest ih =>
    intro i0 kvs h hnd husc
    cases hr : mapFields (fun v k op i => kvForField t a opts v k op i) i0 item with
    | error e =>
      rw [mapItemsFrom, hr] at h
      simp [Except.bind, bind] at h
    | ok r =>
      cases hrs : mapItemsFrom (fun v k op i => kvForField t a opts v k op i) rest (i0 + 1) with
      | error e =>
        rw [mapItemsFrom, hr, hrs] at h
        simp [Except.bind, bind] at h
      | ok rs =>
        rw [mapItemsFrom, hr, hrs] at h
        simp only [Except.bind, bind, pure, Except.pure, Except.ok.injEq] at h
        subst h
        have husc0 : ∀ p ∈ item, UscFree p.1 := husc item (List.mem_cons_self _ _)
        obtain ⟨hrnd, hrmem⟩ := mapFields_names hr (hnd item (List.mem_cons_self _ _)) husc0
        obtain ⟨hsnd, hsmem⟩ := ih hrs (fun q hq => hnd q (List.mem_cons_of_mem _ hq))
          (fun q hq => husc q (List.mem_cons_of_mem _ hq))
        constructor
        · rw [List.map_append, List.nodup_append]
          refine ⟨hrnd, hsnd, ?_⟩
          intro nm hm1 hm2
          obtain ⟨k, s, hk, rfl⟩ := hrmem nm hm1
          obtain ⟨k', i', s', husck', hi', heq⟩ := hsmem _ hm2
          obtain ⟨q, hq, hq1⟩ := List.mem_map.mp hk
          have husck : UscFree k := hq1 ▸ husc0 q hq
          have hinj := pname_inj husck husck' heq
          have : i0 = i' := by
            have h2 := hinj.2
            simp only [List.cons.injEq] at h2
            exact h2.1
          omega
        · intro nm hnm
          rw [List.map_append, List.mem_append] at hnm
          rcases hnm with hm | hm
          · obtain ⟨k, s, hk, rfl⟩ := hrmem nm hm
            obtain ⟨q, hq, hq1⟩ := List.mem_map.mp hk
            exact ⟨k, i0, s, hq1 ▸ husc0 q hq, Nat.le_refl _, rfl⟩
          · obtain ⟨k', i', s', husck', hi', heq⟩ := hsmem nm hm
            exact ⟨k', i', s', husck', by omega, heq⟩

/-- C3 (amended): when every field name is underscore-free (and each item's
keys are distinct, as JavaScript objects guarantee), all parameter names
generated within one compiled query are pairwise distinct, and the `getParams`
record retains every binding (it is exactly the flattened binding list). -/
theorem claim_C3_param_name_uniqueness {V : Type} (t : String) (a : Method)
    (opts : KvOptions V) (items : List (Item V)) (kvs : List (String × ValueKey V))
    (hnd : ∀ item ∈ items, (item.map Prod.fst).Nodup)
    (husc : ∀ item ∈ items, ∀ p ∈ item, UscFree p.1)
    (h : toGroupParametersKeyValue t a items opts = .ok kvs) :
    (kvs.map Prod.fst).Nodup ∧ getParams t a items opts = .ok kvs := by
  have hflat : mapItemsFrom (fun v k op i => kvForField t a opts v k op i) items 0 =
      .ok kvs := h
  have hmain := mapItemsFrom_names hflat hnd husc
  refine ⟨hmain.1, ?_⟩
  unfold getParams
  rw [show toGroupParametersKeyValue t a items opts = .ok kvs from h]
  show Except.ok (kvs.foldl (fun r p => recordInsert r p.1 p.2) []) = .ok kvs
  rw [recordFold_eq_self kvs [] (by simpa using hmain.1)]
  simp

/-- C3 (witness): with underscore-free field names (`a` scalar, `b` a
two-element array) all generated names are distinct and `getParams` keeps
every binding. -/
theorem claim_C3_param_name_uniqueness_witness :
    (([("a_0", (⟨1, "a"⟩ : ValueKey Nat)), ("b_0_0_0", ⟨2, "b"⟩),
        ("b_0_0_1", ⟨3, "b"⟩)].map Prod.fst).Nodup) ∧
    getParams "t" .find
      [[("a", FieldValue.plain (.scalar (some (1 : Nat)))),
        ("b", FieldValue.plain (.arr [2, 3]))]] {} =
      .ok [("a_0", ⟨1, "a"⟩), ("b_0_0_0", ⟨2, "b"⟩), ("b_0_0_1", ⟨3, "b"⟩)] :=
  claim_C3_param_name_uniqueness "t" .find {}
    [[("a", FieldValue.plain (.scalar (some (1 : Nat)))),
      ("b", FieldValue.plain (.arr [2, 3]))]]
    [("a_0", ⟨1, "a"⟩), ("b_0_0_0", ⟨2, "b"⟩), ("b_0_0_1", ⟨3, "b"⟩)]
    (by decide) (by decide) (by decide)

theorem evalInClause_names_of_pairs {V : Type} [DecidableEq V]
    (kvs : List (String × ValueKey V)) (row : V) (hnd : (kvs.map Prod.fst).Nodup) :
    ∀ (pairs : List (String × ValueKey V)), (∀ p ∈ pairs, p ∈ kvs) →
      evalInClause kvs (pairs.map Prod.fst) row =
        pairs.any (fun p => decide (p.2.value = row)) := by
  intro pairs
  induction pairs with
  | nil => intro _; rfl
  | cons p rest ih =>
    intro hsub
    have hp : p ∈ kvs := hsub p (List.mem_cons_self _ _)
    have hlk : kvs.lookup p.1 = some p.2 := lookup_of_mem_nodup hnd (by
      obtain ⟨p1, p2⟩ := p
      exact hp)
    simp only [List.map_cons, evalInClause, List.any_cons] at *
    rw [show (match kvs.lookup p.1 with
        | some vk => decide (vk.value = row)
        | none => false) = decide (p.2.value = row) from by rw [hlk]]
    congr 1
    exact ih (fun q hq => hsub q (List.mem_cons_of_mem _ hq))

theorem mapWithIndexFrom_mem_of_mem {α β : Type} (f : Nat → α → β) :
    ∀ (i : Nat) (l : List α) (a : α), a ∈ l → ∃ j, i ≤ j ∧ f j a ∈ mapWithIndexFrom f i l := by
  intro i l
  induction l generalizing i with
  | nil => intro a h; simp at h
  | cons x xs ih =>
    intro a h
    rcases List.mem_cons.mp h with rfl | h'
    · exact ⟨i, Nat.le_refl i, List.mem_cons_self _ _⟩
    · obtain ⟨j, hj, hmem⟩ := ih (i + 1) a h'
      exact ⟨j, by omega, List.mem_cons_of_mem _ hmem⟩

theorem inChunkNames_eq {V : Type} (k : String) (i : Nat) (chunks : List (List V)) :
    inChunkNames k i chunks =
      (mapWithIndex (fun c carr =>
        mapWithIndex (fun j (v : V) => (pname k [i, c, j], (⟨v, k⟩ : ValueKey V))) carr)
        chunks).map (List.map Prod.fst) := by
  unfold inChunkNames mapWithIndex
  rw [mapWithIndexFrom_map]
  refine mapWithIndexFrom_congr (fun c carr => ?_) 0 chunks
  exact (mapWithIndexFrom_fst (fun j (_ : V) => pname k [i, c, j])
    (fun j v => (⟨v, k⟩ : ValueKey V)) 0 carr).symm

theorem chunkKvs_sub {V : Type} {k : String} {i : Nat} {chunks : List (List V)}
    {pc : List (String × ValueKey V)}
    (hpc : pc ∈ mapWithIndex (fun c carr =>
      mapWithIndex (fun j (v : V) => (pname k [i, c, j], (⟨v, k⟩ : ValueKey V))) carr) chunks) :
    ∀ p ∈ pc, p ∈ chunkKvs k i chunks := by
  intro p hp
  unfold chunkKvs
  exact List.mem_flatten.mpr ⟨pc, hpc, hp⟩

theorem evalChunked_mem_iff {V : Type} [DecidableEq V] (k : String) (i : Nat) (row : V)
    (chunks : List (List V)) :
    ((inChunkNames k i chunks).any
      (fun ns => evalInClause (chunkKvs k i chunks) ns row) = true) ↔
      row ∈ chunks.flatten := by
  rw [List.any_eq_true]
  constructor
  · rintro ⟨ns, hns, heval⟩
    rw [inChunkNames_eq] at hns
    obtain ⟨pc, hpc, rfl⟩ := List.mem_map.mp hns
    rw [evalInClause_names_of_pairs _ _ (chunkKvs_names_nodup k i chunks) pc
      (chunkKvs_sub hpc)] at heval
    rw [List.any_eq_true] at heval
    obtain ⟨p, hp, hval⟩ := heval
    unfold mapWithIndex at hpc
    obtain ⟨c, _, carr, hcarr, rfl⟩ := mem_mapWithIndexFrom hpc
    have hvals : (mapWithIndex (fun j (v : V) =>
        (pname k [i, c, j], (⟨v, k⟩ : ValueKey V))) carr).map (fun p => p.2.value) = carr :=
      inner_kvs_values k [i, c] carr 0
    have hvmem : p.2.value ∈ carr := by
      rw [← hvals]
      exact List.mem_map_of_mem (fun p => p.2.value) hp
    have hrow : row ∈ carr := by
      have := of_decide_eq_true hval
      rwa [this] at hvmem
    exact List.mem_flatten.mpr ⟨carr, hcarr, hrow⟩
  · intro hrow
    obtain ⟨carr, hcarr, hrowc⟩ := List.mem_flatten.mp hrow
    obtain ⟨c, _, hpcmem⟩ := mapWithIndexFrom_mem_of_mem (fun c carr =>
      mapWithIndex (fun j (v : V) => (pname k [i, c, j], (⟨v, k⟩ : ValueKey V))) carr)
      0 chunks carr hcarr
    refine ⟨(mapWithIndex (fun j (v : V) =>
      (pname k [i, c, j], (⟨v, k⟩ : ValueKey V))) carr).map Prod.fst, ?_, ?_⟩
    · rw [inChunkNames_eq]
      exact List.mem_map_of_mem _ hpcmem
    · rw [evalInClause_names_of_pairs _ _ (chunkKvs_names_nodup k i chunks) _
        (chunkKvs_sub hpcmem)]
      rw [List.any_eq_true]
      have hvals : (mapWithIndex (fun j (v : V) =>
          (pname k [i, c, j], (⟨v, k⟩ : ValueKey V))) carr).map (fun p => p.2.value) = carr :=
        inner_kvs_values k [i, c] carr 0
      rw [← hvals] at hrowc
      obtain ⟨p, hp, hpv⟩ := List.mem_map.mp hrowc
      exact ⟨p, hp, by simp [hpv]⟩

theorem evalChunked_in_case {V : Type} [DecidableEq V] {op : Operator}
    (h1 : ¬ op = .notIn) (h2 : ¬ op = .ne) (k : String) (i : Nat) (row : V)
    (chunks : List (List V)) :
    (evalChunkedFragment op (chunkKvs k i chunks) (inChunkNames k i chunks) row = true) ↔
      row ∈ chunks.flatten := by
  unfold evalChunkedFragment
  rw [if_neg h1, if_neg h2]
  exact evalChunked_mem_iff k i row chunks

theorem evalChunked_notin_case {V : Type} [DecidableEq V] (k : String) (i : Nat) (row : V)
    (chunks : List (List V)) :
    (evalChunkedFragment .notIn (chunkKvs k i chunks) (inChunkNames k i chunks) row = true) ↔
      ¬ row ∈ chunks.flatten := by
  unfold evalChunkedFragment
  rw [if_pos rfl]
  rw [← evalChunked_mem_iff k i row chunks]
  rw [List.all_eq_true, List.any_eq_true]
  constructor
  · rintro hall ⟨ns, hns, heval⟩
    have := hall ns hns
    rw [heval] at this
    simp at this
  · intro hnone ns hns
    by_cases hev : evalInClause (chunkKvs k i chunks) ns row = true
    · exact absurd ⟨ns, hns, hev⟩ hnone
    · simp only [Bool.not_eq_true] at hev
      simp [hev]

theorem chunkAux_nil {V : Type} (n fuel : Nat) : chunkAux n fuel ([] : List V) = [] := by
  cases fuel <;> rfl

theorem chunkList_single {V : Type} {l : List V} {n : Nat} (h0 : l ≠ [])
    (hn : 1 ≤ n) (hle : l.length ≤ n) : chunkList l n = [l] := by
  unfold chunkList
  rw [if_neg (by omega)]
  cases l with
  | nil => exact absurd rfl h0
  | cons x xs =>
    show chunkAux n (x :: xs).length (x :: xs) = [x :: xs]
    rw [show (x :: xs).length = xs.length + 1 from rfl]
    show (x :: xs).take n :: chunkAux n xs.length ((x :: xs).drop n) = [x :: xs]
    rw [List.take_of_length_le hle, List.drop_eq_nil_of_le hle, chunkAux_nil]

theorem kv_chunk_branch {V : Type} (t : String) (a : Method) (k : String) (arr : List V)
    (op : Operator) (n : Option Nat) (al : V → V)
    (h0 : ¬ arr.length = 0) (hb : ¬ op = .between) (hlk : ¬ op = .likeOp) :
    toGroupParametersKeyValue t a [[(k, FieldValue.query ⟨.arr arr, some op⟩)]] ⟨n, al⟩ =
      .ok (chunkKvs k 0 (chunkList arr (n.getD DEFAULT_IN_CHUNK))) := by
  simp only [toGroupParametersKeyValue, mapEntityItems, mapItemsFrom, mapFields, kvForField,
    fieldView, Option.getD_some]
  simp only [if_neg h0, if_neg hb, if_neg hlk]
  simp [Except.bind, bind, pure, Except.pure, chunkKvs, mapWithIndex, pname_group]

theorem getParams_chunk_branch {V : Type} (t : String) (a : Method) (k : String)
    (arr : List V) (op : Operator) (n : Option Nat) (al : V → V)
    (h0 : ¬ arr.length = 0) (hb : ¬ op = .between) (hlk : ¬ op = .likeOp) :
    getParams t a [[(k, FieldValue.query ⟨.arr arr, some op⟩)]] ⟨n, al⟩ =
      .ok (chunkKvs k 0 (chunkList arr (n.getD DEFAULT_IN_CHUNK))) := by
  unfold getParams
  rw [kv_chunk_branch t a k arr op n al h0 hb hlk]
  have hnd := chunkKvs_names_nodup k 0 (chunkList arr (n.getD DEFAULT_IN_CHUNK))
  show Except.ok ((chunkKvs k 0 (chunkList arr (n.getD DEFAULT_IN_CHUNK))).foldl
    (fun r p => recordInsert r p.1 p.2) []) = _
  rw [recordFold_eq_self _ [] (by simpa using hnd)]
  simp

theorem sql_chunk_branch {V : Type} (t : String) (a : Method) (k : String) (arr : List V)
    (op : Operator) (n : Option Nat)
    (h0 : ¬ arr.length = 0) (hb : ¬ op = .between) (hlk : ¬ op = .likeOp) :
    toGroupParametersSql t a [[(k, FieldValue.query ⟨.arr arr, some op⟩)]]
        { inChunkSize := n } =
      .ok [(0, ["(" ++ joinSep (if op = .notIn then " AND " else " OR ")
        (mapWithIndex (fun cidx carr =>
          if op = .ne ∨ op = .notIn then
            "[" ++ k ++ "] NOT IN (" ++ joinSep ", " (mapWithIndex
              (fun j (_ : V) => "@" ++ pname k [0, cidx, j]) carr) ++ ")"
          else
            "[" ++ k ++ "] IN (" ++ joinSep ", " (mapWithIndex
              (fun j (_ : V) => "@" ++ pname k [0, cidx, j]) carr) ++ ")")
          (chunkList arr (n.getD DEFAULT_IN_CHUNK))) ++ ")"])] := by
  simp only [toGroupParametersSql, mapEntityItems, mapItemsFrom, mapFields,
    sqlFragmentForField, fieldView, Option.getD_some]
  simp only [if_neg h0, if_neg hb, if_neg hlk]
  simp [Except.bind, bind, pure, Except.pure, Except.map, groupByFst, insertGroup,
    mapWithIndex, pname_group]

/-- C1 (amended): for every non-empty array value compiled with an IN-family
operator, the array is split into chunks of at most `inChunkSize` elements with
placeholders named `{column}_{itemIndex}_{chunkIndex}_{elementIndex}`.  For
operator IN (and the default `=`) the per-chunk `IN` clauses are OR'd and the
compiled predicate under the bound parameters holds exactly for members of the
array, for any chunk size.  For operator NOT IN the per-chunk `NOT IN` clauses
are AND'd and the predicate holds exactly for non-members, for any chunk size.
For operator `!=` the code emits `NOT IN` clauses but glues them with ` OR `
(the glue is `AND` only for the literal `NOT IN` operator), so the predicate
is equivalent to non-membership only when the array fits in a single chunk. -/
theorem claim_C1_array_in_chunking {V : Type} [DecidableEq V] (t : String) (a : Method)
    (k : String) (arr : List V) (op : Operator) (n : Nat) (al : V → V) (row : V)
    (hn : 1 ≤ n) (harr : arr ≠ []) :
    ((op = .inOp ∨ op = .eq) →
      toGroupParametersSql t a [[(k, FieldValue.query ⟨.arr arr, some op⟩)]]
          { inChunkSize := some n } =
        .ok [(0, ["(" ++ joinSep " OR " (mapWithIndex (fun cidx carr =>
          "[" ++ k ++ "] IN (" ++ joinSep ", " (mapWithIndex
            (fun j (_ : V) => "@" ++ pname k [0, cidx, j]) carr) ++ ")")
          (chunkList arr n)) ++ ")"])] ∧
      getParams t a [[(k, FieldValue.query ⟨.arr arr, some op⟩)]] ⟨some n, al⟩ =
        .ok (chunkKvs k 0 (chunkList arr n)) ∧
      ((evalChunkedFragment op (chunkKvs k 0 (chunkList arr n))
        (inChunkNames k 0 (chunkList arr n)) row = true) ↔ row ∈ arr)) ∧
    (op = .notIn →
      toGroupParametersSql t a [[(k, FieldValue.query ⟨.arr arr, some op⟩)]]
          { inChunkSize := some n } =
        .ok [(0, ["(" ++ joinSep " AND " (mapWithIndex (fun cidx carr =>
          "[" ++ k ++ "] NOT IN (" ++ joinSep ", " (mapWithIndex
            (fun j (_ : V) => "@" ++ pname k [0, cidx, j]) carr) ++ ")")
          (chunkList arr n)) ++ ")"])] ∧
      getParams t a [[(k, FieldValue.query ⟨.arr arr, some op⟩)]] ⟨some n, al⟩ =
        .ok (chunkKvs k 0 (chunkList arr n)) ∧
      ((evalChunkedFragment op (chunkKvs k 0 (chunkList arr n))
        (inChunkNames k 0 (chunkList arr n)) row = true) ↔ ¬ row ∈ arr)) ∧
    (op = .ne →
      toGroupParametersSql t a [[(k, FieldValue.query ⟨.arr arr, some op⟩)]]
          { inChunkSize := some n } =
        .ok [(0, ["(" ++ joinSep " OR " (mapWithIndex (fun cidx carr =>
          "[" ++ k ++ "] NOT IN (" ++ joinSep ", " (mapWithIndex
            (fun j (_ : V) => "@" ++ pname k [0, cidx, j]) carr) ++ ")")
          (chunkList arr n)) ++ ")"])] ∧
      getParams t a [[(k, FieldValue.query ⟨.arr arr, some op⟩)]] ⟨some n, al⟩ =
        .ok (chunkKvs k 0 (chunkList arr n)) ∧
      (arr.length ≤ n →
        ((evalChunkedFragment op (chunkKvs k 0 (chunkList arr n))
          (inChunkNames k 0 (chunkList arr n)) row = true) ↔ ¬ row ∈ arr))) := by
  have h0 : ¬ arr.length = 0 := by simpa using harr
  refine ⟨?_, ?_, ?_⟩
  · rintro (rfl | rfl) <;>
      refine ⟨?_, ?_, ?_⟩
    · have h := sql_chunk_branch t a k arr .inOp (some n) h0 (by decide) (by decide)
      simpa using h
    · exact getParams_chunk_branch t a k arr .inOp (some n) al h0 (by decide) (by decide)
    · rw [evalChunked_in_case (by decide) (by decide) k 0 row (chunkList arr n)]
      rw [chunkList_join hn]
    · have h := sql_chunk_branch t a k arr .eq (some n) h0 (by decide) (by decide)
      simpa using h
    · exact getParams_chunk_branch t a k arr .eq (some n) al h0 (by decide) (by decide)
    · rw [evalChunked_in_case (by decide) (by decide) k 0 row (chunkList arr n)]
      rw [chunkList_join hn]
  · rintro rfl
    refine ⟨?_, ?_, ?_⟩
    · have h := sql_chunk_branch t a k arr .notIn (some n) h0 (by decide) (by decide)
      simpa using h
    · exact getParams_chunk_branch t a k arr .notIn (some n) al h0 (by decide) (by decide)
    · rw [evalChunked_notin_case k 0 row (chunkList arr n)]
      rw [chunkList_join hn]
  · rintro rfl
    refine ⟨?_, ?_, ?_⟩
    · have h := sql_chunk_branch t a k arr .ne (some n) h0 (by decide) (by decide)
      simpa using h
    · exact getParams_chunk_branch t a k arr .ne (some n) al h0 (by decide) (by decide)
    · intro hle
      rw [show chunkList arr n = [arr] from chunkList_single harr hn
        (by simpa using hle)]
      have hne : evalChunkedFragment .ne (chunkKvs k 0 [arr]) (inChunkNames k 0 [arr]) row =
          evalChunkedFragment .notIn (chunkKvs k 0 [arr]) (inChunkNames k 0 [arr]) row := by
        simp [evalChunkedFragment, inChunkNames, mapWithIndex, mapWithIndexFrom]
      rw [hne, evalChunked_notin_case k 0 row [arr]]
      simp

/-- C1 (counterexample): the claim says `!=` chunks are AND'd and the compiled
predicate holds exactly for non-members.  With chunk size 1 and array `[1, 2]`,
the emitted `NOT IN` chunks are glued with ` OR `, and the evaluated predicate
is true at row 1 even though 1 is a member of the array. -/
theorem claim_C1_neq_or_glue_counterexample :
    toGroupParametersSql "t" .find [[("a", FieldValue.query ⟨.arr ([1, 2] : List Nat), some .ne⟩)]]
      { inChunkSize := some 1 } =
      .ok [(0, ["([a] NOT IN (@a_0_0_0) OR [a] NOT IN (@a_0_1_0))"])] ∧
    getParams "t" .find [[("a", FieldValue.query ⟨.arr ([1, 2] : List Nat), some .ne⟩)]]
      ⟨some 1, id⟩ =
      .ok [("a_0_0_0", ⟨1, "a"⟩), ("a_0_1_0", ⟨2, "a"⟩)] ∧
    (1 : Nat) ∈ [1, 2] ∧
    evalChunkedFragment .ne [("a_0_0_0", (⟨1, "a"⟩ : ValueKey Nat)), ("a_0_1_0", ⟨2, "a"⟩)]
      (inChunkNames "a" 0 (chunkList ([1, 2] : List Nat) 1)) 1 = true := by
  refine ⟨by decide, by decide, by decide, by decide⟩

/-- C1 (witness): array `[1, 2, 3]` with operator IN and chunk size 2 splits
into two chunks OR'd together, binds one parameter per element, and the
evaluated predicate at row 2 agrees with membership. -/
theorem claim_C1_array_in_chunking_witness :
    toGroupParametersSql "t" .find
      [[("a", FieldValue.query ⟨.arr ([1, 2, 3] : List Nat), some .inOp⟩)]]
      { inChunkSize := some 2 } =
      .ok [(0, ["([a] IN (@a_0_0_0, @a_0_0_1) OR [a] IN (@a_0_1_0))"])] ∧
    getParams "t" .find
      [[("a", FieldValue.query ⟨.arr ([1, 2, 3] : List Nat), some .inOp⟩)]] ⟨some 2, id⟩ =
      .ok [("a_0_0_0", ⟨1, "a"⟩), ("a_0_0_1", ⟨2, "a"⟩), ("a_0_1_0", ⟨3, "a"⟩)] ∧
    ((evalChunkedFragment .inOp (chunkKvs "a" 0 (chunkList ([1, 2, 3] : List Nat) 2))
      (inChunkNames "a" 0 (chunkList ([1, 2, 3] : List Nat) 2)) 2 = true) ↔
      (2 : Nat) ∈ [1, 2, 3]) := by
  obtain ⟨hsql, hgp, hiff⟩ := (claim_C1_array_in_chunking "t" .find "a" [1, 2, 3] .inOp 2 id 2
    (by decide) (by decide)).1 (Or.inl rfl)
  refine ⟨?_, ?_, hiff⟩
  · rw [hsql]; decide
  · rw [hgp]; decide

theorem lookup_mem_of_some {κ β : Type} [BEq κ] [LawfulBEq κ] {k : κ} {v : β} :
    ∀ {r : List (κ × β)}, r.lookup k = some v → (k, v) ∈ r := by
  intro r
  induction r with
  | nil => intro h; simp [List.lookup] at h
  | cons p rest ih =>
    intro h
    obtain ⟨k1, v1⟩ := p
    by_cases hk : k = k1
    · subst hk
      simp only [List.lookup, beq_self_eq_true] at h
      simp only [Option.some.injEq] at h
      subst h
      exact List.mem_cons_self _ _
    · simp only [List.lookup, beq_eq_false_iff_ne.mpr hk] at h
      exact List.mem_cons_of_mem _ (ih h)

theorem lookupN_none_of_not_mem {β : Type} {k : Nat} :
    ∀ {r : List (Nat × β)}, k ∉ r.map Prod.fst → r.lookup k = none := by
  intro r
  induction r with
  | nil => intro _; rfl
  | cons p rest ih =>
    intro h
    simp only [List.map_cons, List.mem_cons, not_or] at h
    obtain ⟨h1, h2⟩ := h
    obtain ⟨pk, pv⟩ := p
    show List.lookup k ((pk, pv) :: rest) = none
    simp only [List.lookup, beq_eq_false_iff_ne.mpr h1]
    exact ih h2

theorem lookupN_of_mem_nodup {β : Type} {k : Nat} {v : β} :
    ∀ {r : List (Nat × β)}, (r.map Prod.fst).Nodup → (k, v) ∈ r → r.lookup k = some v := by
  intro r
  induction r with
  | nil => intro _ h; simp at h
  | cons p rest ih =>
    intro hnd hmem
    simp only [List.map_cons, List.nodup_cons] at hnd
    rcases List.mem_cons.mp hmem with rfl | hmem'
    · show List.lookup k ((k, v) :: rest) = some v
      simp [List.lookup]
    · obtain ⟨pk, pv⟩ := p
      have hne : k ≠ pk := by
        rintro rfl
        exact hnd.1 (List.mem_map.mpr ⟨(k, v), hmem', rfl⟩)
      show List.lookup k ((pk, pv) :: rest) = some v
      simp only [List.lookup, beq_eq_false_iff_ne.mpr hne]
      exact ih hnd.2 hmem'

theorem insertGroup_lookup {β : Type} (k0 : Nat) (v : β) (k : Nat) :
    ∀ (acc : List (Nat × List β)),
      (insertGroup acc k0 v).lookup k =
        match acc.lookup k with
        | some vs => some (vs ++ if k0 = k then [v] else [])
        | none => if k0 = k then some [v] else none := by
  intro acc
  induction acc with
  | nil =>
    by_cases h : k0 = k
    · subst h
      simp [insertGroup, List.lookup]
    · simp [insertGroup, List.lookup, beq_eq_false_iff_ne.mpr (Ne.symm h), h]
  | cons g rest ih =>
    obtain ⟨k1, vs1⟩ := g
    by_cases h01 : k0 = k1
    · subst h01
      simp only [insertGroup, if_pos rfl]
      by_cases hk : k = k0
      · subst hk
        simp [List.lookup]
      · simp only [List.lookup, beq_eq_false_iff_ne.mpr hk]
        have : ¬ k0 = k := fun hc => hk hc.symm
        simp only [this, if_false, List.append_nil]
        cases List.lookup k rest <;> rfl
    · simp only [insertGroup, if_neg h01]
      by_cases hk : k = k1
      · subst hk
        simp only [List.lookup, beq_self_eq_true]
        have : ¬ k0 = k := fun hc => h01 hc
        simp [this]
      · simp only [List.lookup, beq_eq_false_iff_ne.mpr hk]
        exact ih

theorem groupFold_lookup {β : Type} :
    ∀ (l : List (Nat × β)) (acc : List (Nat × List β)) (k : Nat),
      (l.foldl (fun acc p => insertGroup acc p.1 p.2) acc).lookup k =
        match acc.lookup k, (l.filter (fun p => p.1 = k)).map Prod.snd with
        | some vs, ws => some (vs ++ ws)
        | none, [] => none
        | none, ws => some ws := by
  intro l
  induction l with
  | nil =>
    intro acc k
    simp only [List.foldl_nil, List.filter_nil, List.map_nil]
    cases acc.lookup k <;> simp
  | cons p rest ih =>
    intro acc k
    obtain ⟨k0, v⟩ := p
    simp only [List.foldl_cons]
    rw [ih]
    rw [insertGroup_lookup k0 v k acc]
    by_cases hk : k0 = k
    · subst hk
      simp only [List.filter_cons]
      rw [if_pos (by simp)]
      cases acc.lookup k0 with
      | some vs => simp
      | none => simp
    · have : ¬ ((k0, v).1 = k) := hk
      simp only [List.filter_cons]
      rw [if_neg (by simpa using this)]
      cases acc.lookup k with
      | some vs => simp [hk]
      | none => simp [hk]

theorem groupByFst_lookup {β : Type} (l : List (Nat × β)) (k : Nat) :
    (groupByFst l).lookup k =
      match (l.filter (fun p => p.1 = k)).map Prod.snd with
      | [] => none
      | ws => some ws := by
  unfold groupByFst
  rw [groupFold_lookup l [] k]
  cases (l.filter (fun p => p.1 = k)).map Prod.snd <;> rfl

theorem insertGroup_keys {β : Type} (k0 : Nat) (v : β) :
    ∀ (acc : List (Nat × List β)),
      (insertGroup acc k0 v).map Prod.fst =
        if k0 ∈ acc.map Prod.fst then acc.map Prod.fst else acc.map Prod.fst ++ [k0] := by
  intro acc
  induction acc with
  | nil => simp [insertGroup]
  | cons g rest ih =>
    obtain ⟨k1, vs1⟩ := g
    by_cases h01 : k0 = k1
    · subst h01
      simp [insertGroup]
    · simp only [insertGroup, if_neg h01, List.map_cons, ih]
      by_cases hmem : k0 ∈ rest.map Prod.fst
      · simp [hmem, h01]
      · simp [hmem, h01]

theorem groupFold_keys_nodup {β : Type} :
    ∀ (l : List (Nat × β)) (acc : List (Nat × List β)),
      ((acc.map Prod.fst).Nodup) →
      ((l.foldl (fun acc p => insertGroup acc p.1 p.2) acc).map Prod.fst).Nodup := by
  intro l
  induction l with
  | nil => intro acc h; exact h
  | cons p rest ih =>
    intro acc h
    simp only [List.foldl_cons]
    refine ih _ ?_
    rw [insertGroup_keys]
    by_cases hmem : p.1 ∈ acc.map Prod.fst
    · simpa [hmem] using h
    · rw [if_neg hmem]
      simp [List.nodup_append, h, hmem]

theorem groupByFst_keys_nodup {β : Type} (l : List (Nat × β)) :
    ((groupByFst l).map Prod.fst).Nodup :=
  groupFold_keys_nodup l [] List.nodup_nil

theorem mapFields_colPairs {V : Type} (i : Nat) :
    ∀ (item : Item V),
      mapFields (V := V) (β := Nat × String) (fun _ k _ i => .ok [(i, k)]) i item =
        .ok (item.map (fun p => (i, p.1))) := by
  intro item
  induction item with
  | nil => rfl
  | cons p rest ih =>
    obtain ⟨k, fv⟩ := p
    show (do
      let r ← (.ok [(i, k)] : Except SqlError (List (Nat × String)))
      let rs ← mapFields (fun _ k _ i => .ok [(i, k)]) i rest
      pure (r ++ rs)) = _
    rw [ih]
    rfl

theorem mapItemsFrom_colPairs {V : Type} :
    ∀ (items : List (Item V)) (i0 : Nat),
      mapItemsFrom (V := V) (β := Nat × String) (fun _ k _ i => .ok [(i, k)]) items i0 =
        .ok (colPairsFrom i0 items) := by
  intro items
  induction items with
  | nil => intro i0; rfl
  | cons item rest ih =>
    intro i0
    show (do
      let r ← mapFields (fun _ k _ i => .ok [(i, k)]) i0 item
      let rs ← mapItemsFrom (fun _ k _ i => .ok [(i, k)]) rest (i0 + 1)
      pure (r ++ rs)) = _
    rw [mapFields_colPairs, ih]
    show Except.ok (item.map (fun p => (i0, p.1)) ++ colPairsFrom (i0 + 1) rest) = _
    rfl

theorem getColumnLists_eq {V : Type} (items : List (Item V)) :
    getColumnLists items = groupByFst (colPairsFrom 0 items) := by
  unfold getColumnLists mapEntityItems
  rw [mapItemsFrom_colPairs]

theorem colPairs_mem_ge {V : Type} :
    ∀ (items : List (Item V)) (i0 : Nat) (p : Nat × String),
      p ∈ colPairsFrom i0 items → i0 ≤ p.1 := by
  intro items
  induction items with
  | nil => intro i0 p h; simp [colPairsFrom, mapWithIndexFrom] at h
  | cons item rest ih =>
    intro i0 p h
    unfold colPairsFrom at h
    simp only [mapWithIndexFrom, List.flatten_cons, List.mem_append] at h
    rcases h with h | h
    · obtain ⟨q, _, rfl⟩ := List.mem_map.mp h
      exact Nat.le_refl i0
    · have := ih (i0 + 1) p h
      omega

theorem colPairs_filter {V : Type} :
    ∀ (items : List (Item V)) (i0 i : Nat), i0 ≤ i →
      (colPairsFrom i0 items).filter (fun p => p.1 = i) =
        (items.getD (i - i0) []).map (fun p => (i, p.1)) := by
  intro items
  induction items with
  | nil =>
    intro i0 i _
    simp [colPairsFrom, mapWithIndexFrom, List.getD]
  | cons item rest ih =>
    intro i0 i hle
    unfold colPairsFrom
    simp only [mapWithIndexFrom, List.flatten_cons, List.filter_append]
    by_cases hi : i = i0
    · subst hi
      have h1 : (item.map (fun p => (i, p.1))).filter (fun p => p.1 = i) =
          item.map (fun p => (i, p.1)) := by
        rw [List.filter_eq_self]
        intro q hq
        obtain ⟨x, _, rfl⟩ := List.mem_map.mp hq
        simp
      have h2 : (colPairsFrom (i + 1) rest).filter (fun p => p.1 = i) = [] := by
        rw [List.filter_eq_nil_iff]
        intro q hq
        have := colPairs_mem_ge rest (i + 1) q hq
        simp only [decide_eq_true_eq]
        omega
      rw [h1]
      show item.map (fun p => (i, p.1)) ++
        (colPairsFrom (i + 1) rest).filter (fun p => p.1 = i) = _
      rw [h2]
      simp [List.getD]
    · have h1 : (item.map (fun p => (i0, p.1))).filter (fun p => p.1 = i) = [] := by
        rw [List.filter_eq_nil_iff]
        intro q hq
        obtain ⟨x, _, rfl⟩ := List.mem_map.mp hq
        simp only [decide_eq_true_eq]
        exact fun hc => hi hc.symm
      rw [h1]
      show [] ++ (colPairsFrom (i0 + 1) rest).filter (fun p => p.1 = i) = _
      rw [List.nil_append, ih (i0 + 1) i (by omega)]
      have : i - i0 = (i - (i0 + 1)) + 1 := by omega
      rw [this]
      rfl

theorem getColumnLists_lookup {V : Type} (items : List (Item V)) (i : Nat) :
    (getColumnLists items).lookup i =
      match (items.getD i []).map Prod.fst with
      | [] => none
      | cols => some cols := by
  rw [getColumnLists_eq, groupByFst_lookup, colPairs_filter items 0 i (by omega)]
  simp only [Nat.sub_zero, List.map_map]
  have hfun : (Prod.snd ∘ fun (p : String × FieldValue V) => (i, p.1)) =
      (Prod.fst : String × FieldValue V → String) := by
    funext p
    rfl
  rw [hfun]
  generalize (items.getD i []).map Prod.fst = ws
  cases ws <;> rfl

theorem insertShapeGroup_ids (key0 : String) (cols0 : List String) (idx : Nat) (K : String) :
    ∀ (acc : List ColumnGroup),
      idsOfGroup (insertShapeGroup acc key0 cols0 idx) K =
        idsOfGroup acc K ++ (if key0 = K then [idx] else []) := by
  intro acc
  induction acc with
  | nil =>
    by_cases h : key0 = K
    · subst h
      simp [insertShapeGroup, idsOfGroup, findGroup]
    · simp [insertShapeGroup, idsOfGroup, findGroup, h, Ne.symm h]
  | cons g rest ih =>
    by_cases h0 : key0 = g.sortedKey
    · simp only [insertShapeGroup, if_pos h0]
      by_cases hK : g.sortedKey = K
      · subst hK
        have : key0 = g.sortedKey := h0
        simp [idsOfGroup, findGroup, this]
      · have hne : ¬ key0 = K := fun hc => hK (h0 ▸ hc)
        simp [idsOfGroup, findGroup, hK, hne]
    · simp only [insertShapeGroup, if_neg h0]
      by_cases hK : g.sortedKey = K
      · have hne : ¬ key0 = K := fun hc => h0 (by rw [hc, hK])
        simp [idsOfGroup, findGroup, hK, hne]
      · simp only [idsOfGroup, findGroup, if_neg hK]
        exact ih

theorem shapeFold_ids :
    ∀ (entries : List (Nat × List String)) (acc : List ColumnGroup) (K : String),
      idsOfGroup (entries.foldl (fun acc p =>
        insertShapeGroup acc (jsonStringifyStrList (sortStrings p.2)) (sortStrings p.2) p.1)
        acc) K =
      idsOfGroup acc K ++
        ((entries.filter (fun e => jsonStringifyStrList (sortStrings e.2) = K)).map
          Prod.fst) := by
  intro entries
  induction entries with
  | nil => intro acc K; simp
  | cons e rest ih =>
    intro acc K
    simp only [List.foldl_cons]
    rw [ih, insertShapeGroup_ids]
    by_cases h : jsonStringifyStrList (sortStrings e.2) = K
    · simp only [List.filter_cons]
      rw [if_pos (by simpa using h)]
      simp [h, List.append_assoc]
    · simp only [List.filter_cons]
      rw [if_neg (by simpa using h)]
      simp [h]

theorem findGroup_some_mem {K : String} :
    ∀ {gs : List ColumnGroup} {g : ColumnGroup},
      findGroup gs K = some g → g ∈ gs ∧ g.sortedKey = K := by
  intro gs
  induction gs with
  | nil => intro g h; simp [findGroup] at h
  | cons g0 rest ih =>
    intro g h
    by_cases h0 : g0.sortedKey = K
    · rw [findGroup, if_pos h0] at h
      simp only [Option.some.injEq] at h
      subst h
      exact ⟨List.mem_cons_self _ _, h0⟩
    · rw [findGroup, if_neg h0] at h
      obtain ⟨hmem, hk⟩ := ih h
      exact ⟨List.mem_cons_of_mem _ hmem, hk⟩

theorem mem_findGroup {g : ColumnGroup} :
    ∀ {gs : List ColumnGroup}, (gs.map ColumnGroup.sortedKey).Nodup → g ∈ gs →
      findGroup gs g.sortedKey = some g := by
  intro gs
  induction gs with
  | nil => intro _ h; simp at h
  | cons g0 rest ih =>
    intro hnd hmem
    simp only [List.map_cons, List.nodup_cons] at hnd
    rcases List.mem_cons.mp hmem with rfl | hmem'
    · rw [findGroup, if_pos rfl]
    · have hne : ¬ g0.sortedKey = g.sortedKey := by
        intro hc
        exact hnd.1 (List.mem_map.mpr ⟨g, hmem', hc.symm⟩)
      rw [findGroup, if_neg hne]
      exact ih hnd.2 hmem'

theorem insertShapeGroup_keys (key0 : String) (cols0 : List String) (idx : Nat) :
    ∀ (acc : List ColumnGroup),
      (insertShapeGroup acc key0 cols0 idx).map ColumnGroup.sortedKey =
        if key0 ∈ acc.map ColumnGroup.sortedKey then acc.map ColumnGroup.sortedKey
        else acc.map ColumnGroup.sortedKey ++ [key0] := by
  intro acc
  induction acc with
  | nil => simp [insertShapeGroup]
  | cons g rest ih =>
    by_cases h0 : key0 = g.sortedKey
    · subst h0
      simp [insertShapeGroup]
    · simp only [insertShapeGroup, if_neg h0, List.map_cons, ih]
      by_cases hmem : key0 ∈ rest.map ColumnGroup.sortedKey
      · simp [hmem, h0]
      · simp [hmem, h0]

theorem shapeFold_keys_nodup :
    ∀ (entries : List (Nat × List String)) (acc : List ColumnGroup),
      ((acc.map ColumnGroup.sortedKey).Nodup) →
      ((entries.foldl (fun acc p =>
        insertShapeGroup acc (jsonStringifyStrList (sortStrings p.2)) (sortStrings p.2) p.1)
        acc).map ColumnGroup.sortedKey).Nodup := by
  intro entries
  induction entries with
  | nil => intro acc h; exact h
  | cons e rest ih =>
    intro acc h
    simp only [List.foldl_cons]
    refine ih _ ?_
    rw [insertShapeGroup_keys]
    by_cases hmem : jsonStringifyStrList (sortStrings e.2) ∈ acc.map ColumnGroup.sortedKey
    · simpa [hmem] using h
    · rw [if_neg hmem]
      simp [List.nodup_append, h, hmem]

theorem escData_quote_cancel :
    ∀ {s1 s2 r1 r2 : List Char},
      s1.flatMap jsonEscChar ++ '"' :: r1 = s2.flatMap jsonEscChar ++ '"' :: r2 →
      s1 = s2 ∧ r1 = r2 := by
  intro s1
  induction s1 with
  | nil =>
    intro s2 r1 r2 h
    cases s2 with
    | nil => simpa using h
    | cons d s2' =>
      exfalso
      simp only [List.flatMap_nil, List.nil_append, List.flatMap_cons, List.append_assoc] at h
      by_cases hd : d = '"' ∨ d = '\\'
      · rw [show jsonEscChar d = ['\\', d] from by simp [jsonEscChar, hd]] at h
        simp at h
      · rw [show jsonEscChar d = [d] from by simp [jsonEscChar, hd]] at h
        simp only [List.cons_append, List.cons.injEq] at h
        push_neg at hd
        exact hd.1 h.1.symm
  | cons c s1' ih =>
    intro s2 r1 r2 h
    cases s2 with
    | nil =>
      exfalso
      simp only [List.flatMap_nil, List.nil_append, List.flatMap_cons, List.append_assoc] at h
      by_cases hc : c = '"' ∨ c = '\\'
      · rw [show jsonEscChar c = ['\\', c] from by simp [jsonEscChar, hc]] at h
        simp at h
      · rw [show jsonEscChar c = [c] from by simp [jsonEscChar, hc]] at h
        simp only [List.cons_append, List.cons.injEq] at h
        push_neg at hc
        exact hc.1 h.1
    | cons d s2' =>
      simp only [List.flatMap_cons, List.append_assoc] at h
      by_cases hc : c = '"' ∨ c = '\\'
      · by_cases hd : d = '"' ∨ d = '\\'
        · rw [show jsonEscChar c = ['\\', c] from by simp [jsonEscChar, hc],
            show jsonEscChar d = ['\\', d] from by simp [jsonEscChar, hd]] at h
          simp only [List.cons_append, List.cons.injEq, true_and] at h
          obtain ⟨hcd, h2⟩ := h
          obtain ⟨hs, hr⟩ := ih (by simpa using h2)
          exact ⟨by rw [hcd, hs], hr⟩
        · exfalso
          rw [show jsonEscChar c = ['\\', c] from by simp [jsonEscChar, hc],
            show jsonEscChar d = [d] from by simp [jsonEscChar, hd]] at h
          simp only [List.cons_append, List.cons.injEq] at h
          push_neg at hd
          exact hd.2 h.1.symm
      · by_cases hd : d = '"' ∨ d = '\\'
        · exfalso
          rw [show jsonEscChar c = [c] from by simp [jsonEscChar, hc],
            show jsonEscChar d = ['\\', d] from by simp [jsonEscChar, hd]] at h
          simp only [List.cons_append, List.cons.injEq] at h
          push_neg at hc
          exact hc.2 h.1
        · rw [show jsonEscChar c = [c] from by simp [jsonEscChar, hc],
            show jsonEscChar d = [d] from by simp [jsonEscChar, hd]] at h
          simp only [List.cons_append, List.cons.injEq] at h
          obtain ⟨hcd, h2⟩ := h
          obtain ⟨hs, hr⟩ := ih (by simpa using h2)
          exact ⟨by rw [hcd, hs], hr⟩

theorem joinSep_quote_data :
    ∀ l : List String, (joinSep "," (l.map jsonQuoteStr)).data = jsonBodyData l := by
  intro l
  induction l with
  | nil => rfl
  | cons s tail ih =>
    cases tail with
    | nil => simp [joinSep, jsonBodyData, jsonQuoteStr, String.data_append]
    | cons r rest =>
      simp only [List.map_cons, joinSep, jsonBodyData, String.data_append] at ih ⊢
      rw [ih]
      simp [jsonQuoteStr, String.data_append]

theorem jsonBodyData_inj :
    ∀ {l1 l2 : List String}, jsonBodyData l1 = jsonBodyData l2 → l1 = l2 := by
  intro l1
  induction l1 with
  | nil =>
    intro l2 h
    cases l2 with
    | nil => rfl
    | cons t tail =>
      exfalso
      cases tail <;> simp [jsonBodyData] at h
  | cons s tail ih =>
    intro l2 h
    cases tail with
    | nil =>
      cases l2 with
      | nil => exfalso; simp [jsonBodyData] at h
      | cons t tail2 =>
        cases tail2 with
        | nil =>
          simp only [jsonBodyData, List.cons_append, List.cons.injEq, true_and] at h
          obtain ⟨hs, -⟩ := escData_quote_cancel h
          rw [show s = t from String.ext hs]
        | cons u rest2 =>
          exfalso
          simp only [jsonBodyData, List.cons_append, List.cons.injEq, true_and] at h
          obtain ⟨-, hr⟩ := escData_quote_cancel h
          exact absurd hr (by simp)
    | cons r rest =>
      cases l2 with
      | nil => exfalso; simp [jsonBodyData] at h
      | cons t tail2 =>
        cases tail2 with
        | nil =>
          exfalso
          simp only [jsonBodyData, List.cons_append, List.cons.injEq, true_and] at h
          obtain ⟨-, hr⟩ := escData_quote_cancel h
          exact absurd hr (by simp)
        | cons u rest2 =>
          simp only [jsonBodyData, List.cons_append, List.cons.injEq, true_and] at h
          obtain ⟨hs, hr⟩ := escData_quote_cancel h
          simp only [List.cons.injEq, true_and] at hr
          rw [show s = t from String.ext hs, ih hr]

theorem jsonStringifyStrList_inj {l1 l2 : List String}
    (h : jsonStringifyStrList l1 = jsonStringifyStrList l2) : l1 = l2 := by
  have hd := congrArg String.data h
  simp only [jsonStringifyStrList, String.data_append, joinSep_quote_data] at hd
  apply jsonBodyData_inj
  have hd2 : jsonBodyData l1 ++ [']'] = jsonBodyData l2 ++ [']'] := by
    have := hd
    simpa using this
  exact List.append_cancel_right hd2

theorem getColumnLists_keys_nodup {V : Type} (items : List (Item V)) :
    ((getColumnLists items).map Prod.fst).Nodup := by
  rw [getColumnLists_eq]
  exact groupByFst_keys_nodup _

theorem getColumnLists_lookup_of_ne {V : Type} {items : List (Item V)} {r : Nat}
    (hr : items.getD r [] ≠ []) :
    (getColumnLists items).lookup r = some ((items.getD r []).map Prod.fst) := by
  rw [getColumnLists_lookup]
  cases hc : (items.getD r []).map Prod.fst with
  | nil => exact absurd (List.map_eq_nil_iff.mp hc) hr
  | cons a l => rfl

theorem shapeGroups_keys_nodup {V : Type} (items : List (Item V)) :
    ((groupEntityParametersBySortedColumns items).map ColumnGroup.sortedKey).Nodup := by
  unfold groupEntityParametersBySortedColumns
  exact shapeFold_keys_nodup _ _ List.nodup_nil

theorem shapeGroups_ids {V : Type} (items : List (Item V)) (K : String) :
    idsOfGroup (groupEntityParametersBySortedColumns items) K =
      ((getColumnLists items).filter
        (fun e => jsonStringifyStrList (sortStrings e.2) = K)).map Prod.fst := by
  unfold groupEntityParametersBySortedColumns
  rw [shapeFold_ids]
  rfl

theorem mem_shapeGroup_iff {V : Type} (items : List (Item V)) (K : String) (r : Nat)
    (hr : items.getD r [] ≠ []) :
    r ∈ idsOfGroup (groupEntityParametersBySortedColumns items) K ↔
      jsonStringifyStrList (sortStrings ((items.getD r []).map Prod.fst)) = K := by
  rw [shapeGroups_ids]
  constructor
  · intro h
    obtain ⟨⟨r1, c⟩, hmem, hfst⟩ := List.mem_map.mp h
    obtain ⟨hin, hkey⟩ := List.mem_filter.mp hmem
    have hr1 : r = r1 := hfst.symm
    subst hr1
    have hlk := lookupN_of_mem_nodup (getColumnLists_keys_nodup items) hin
    rw [getColumnLists_lookup_of_ne hr] at hlk
    have hc : c = (items.getD r []).map Prod.fst := (Option.some.inj hlk).symm
    subst hc
    simpa using hkey
  · intro h
    exact List.mem_map.mpr ⟨(r, (items.getD r []).map Prod.fst),
      List.mem_filter.mpr
        ⟨lookup_mem_of_some (getColumnLists_lookup_of_ne hr), by simpa using h⟩, rfl⟩

theorem sameGroup_iff {V : Type} (items : List (Item V)) (i j : Nat)
    (hne_i : items.getD i [] ≠ []) (hne_j : items.getD j [] ≠ []) :
    (∃ g ∈ groupEntityParametersBySortedColumns items, i ∈ g.ids ∧ j ∈ g.ids) ↔
      sortStrings ((items.getD i []).map Prod.fst) =
        sortStrings ((items.getD j []).map Prod.fst) := by
  constructor
  · rintro ⟨g, hg, hig, hjg⟩
    have hfind := mem_findGroup (shapeGroups_keys_nodup items) hg
    have hidsg :
        idsOfGroup (groupEntityParametersBySortedColumns items) g.sortedKey = g.ids := by
      unfold idsOfGroup
      rw [hfind]
    have hi := (mem_shapeGroup_iff items g.sortedKey i hne_i).mp (by rw [hidsg]; exact hig)
    have hj := (mem_shapeGroup_iff items g.sortedKey j hne_j).mp (by rw [hidsg]; exact hjg)
    exact jsonStringifyStrList_inj (hi.trans hj.symm)
  · intro hsort
    set K := jsonStringifyStrList (sortStrings ((items.getD i []).map Prod.fst)) with hK
    have hi := (mem_shapeGroup_iff items K i hne_i).mpr hK.symm
    have hj := (mem_shapeGroup_iff items K j hne_j).mpr (by rw [hK, ← hsort])
    cases hfind : findGroup (groupEntityParametersBySortedColumns items) K with
    | none =>
      exfalso
      unfold idsOfGroup at hi
      rw [hfind] at hi
      exact List.not_mem_nil i hi
    | some g =>
      obtain ⟨hgmem, -⟩ := findGroup_some_mem hfind
      refine ⟨g, hgmem, ?_, ?_⟩
      · unfold idsOfGroup at hi; rw [hfind] at hi; exact hi
      · unfold idsOfGroup at hj; rw [hfind] at hj; exact hj

theorem insertSql_statements {V : Type} (items : List (Item V)) (t : String)
    (cf : Option MaybeArrayStr) (opts : KvOptions V) (q : QueryType V)
    (h : insertSql t items cf opts = .ok q) :
    q.sql = joinSep "\n"
      ((groupEntityParametersBySortedColumns (entityParametersFilter items cf .outMode)).map
        (fun g => "INSERT INTO [" ++ t ++ "]" ++ " " ++
          ("([" ++ joinSep "],  [" g.columns ++ "])" ++ " VALUES " ++
            joinSep ", " (g.ids.map (fun r =>
              "(" ++ joinSep ", " (g.columns.map (fun col => "@" ++ pname col [r])) ++
                ")"))) ++ ";")) := by
  simp only [insertSql, bind, Except.bind] at h
  cases hp : getParams t .insert (entityParametersFilter items cf .outMode) opts with
  | error e =>
    rw [hp] at h
    exact absurd h (by simp)
  | ok ps =>
    rw [hp] at h
    simp only [pure, Except.pure, Except.ok.injEq] at h
    subst h
    simp only [buildInsertSqlStatements, buildColumnsAndValuesSqlStatements, List.map_map]
    rfl

/-- **C8.** `groupEntityParametersBySortedColumns` places two item indices (of
non-empty items) in the same group exactly when their sorted lists of present
column names are equal, and `insertSql` emits one
`INSERT INTO [table] (...) VALUES (...)` statement per group whose VALUES rows
are exactly the rows of that group; hence two items with different field sets
land in different groups and produce separate statements. -/
theorem claim_C8_shape_grouping {V : Type} (items : List (Item V)) (i j : Nat)
    (hne_i : items.getD i [] ≠ []) (hne_j : items.getD j [] ≠ []) :
    ((∃ g ∈ groupEntityParametersBySortedColumns items, i ∈ g.ids ∧ j ∈ g.ids) ↔
      sortStrings ((items.getD i []).map Prod.fst) =
        sortStrings ((items.getD j []).map Prod.fst)) ∧
    (∀ (t : String) (cf : Option MaybeArrayStr) (opts : KvOptions V) (q : QueryType V),
      insertSql t items cf opts = .ok q →
      q.sql = joinSep "\n"
        ((groupEntityParametersBySortedColumns
            (entityParametersFilter items cf .outMode)).map
          (fun g => "INSERT INTO [" ++ t ++ "]" ++ " " ++
            ("([" ++ joinSep "],  [" g.columns ++ "])" ++ " VALUES " ++
              joinSep ", " (g.ids.map (fun r =>
                "(" ++ joinSep ", " (g.columns.map (fun col => "@" ++ pname col [r])) ++
                  ")"))) ++ ";"))) :=
  ⟨sameGroup_iff items i j hne_i hne_j,
   fun t cf opts q h => insertSql_statements items t cf opts q h⟩

theorem claim_C8_shape_grouping_witness :
    (itemsC8.getD 0 [] ≠ [] ∧ itemsC8.getD 1 [] ≠ []) ∧
    ((∃ g ∈ groupEntityParametersBySortedColumns itemsC8, 0 ∈ g.ids ∧ 1 ∈ g.ids) ↔
      sortStrings ((itemsC8.getD 0 []).map Prod.fst) =
        sortStrings ((itemsC8.getD 1 []).map Prod.fst)) ∧
    (∀ (t : String) (cf : Option MaybeArrayStr) (opts : KvOptions Nat) (q : QueryType Nat),
      insertSql t itemsC8 cf opts = .ok q →
      q.sql = joinSep "\n"
        ((groupEntityParametersBySortedColumns
            (entityParametersFilter itemsC8 cf .outMode)).map
          (fun g => "INSERT INTO [" ++ t ++ "]" ++ " " ++
            ("([" ++ joinSep "],  [" g.columns ++ "])" ++ " VALUES " ++
              joinSep ", " (g.ids.map (fun r =>
                "(" ++ joinSep ", " (g.columns.map (fun col => "@" ++ pname col [r])) ++
                  ")"))) ++ ";"))) :=
  ⟨⟨by decide, by decide⟩,
   (claim_C8_shape_grouping itemsC8 0 1 (by decide) (by decide)).1,
   (claim_C8_shape_grouping itemsC8 0 1 (by decide) (by decide)).2⟩

end AzureSql
